import Mathlib

/-!
Verification of the task-graph orchestration engine and the data-ingestion
cleaning logic of the multi-cloud data-warehouse pipeline repository.

The repository's orchestration layer (`src/airflow/unified_dw_dag.py`) is a
declarative Airflow DAG: it supplies the retry configuration
(`default_args`: `retries = 2`, `retry_delay = timedelta(minutes=5)`), the
three task groups with their internal linear chains (`>>`), the quality-check
tasks, and the inter-group edges
(`[redshift_group, bigquery_group] >> snowflake_group >> run_dbt_models >>
pipeline_summary`).  The scheduler/executor that interprets such a DAG is not
part of the repository's sources, so the engine itself (states, dispatch,
ready sets, validation, gating, verdicts) is modelled from the specification
and checked for internal consistency; the configuration constants are taken
from the source.

The data-cleaning logic (`clean_dataframe` and `add_features` in
`src/scripts/01_data_ingestion.py`) is embedded directly from the source,
with pandas dataframes modelled as a column list plus association-list rows,
and the Python object/mutation discipline modelled by an explicit heap for
the frame-effect claim.
-/

/-- Modelled from the spec: the per-task states of the engine
(`Pending, Running, Succeeded, Failed, Retrying, Skipped`, §3 Data Model). -/
inductive TState where
  | Pending
  | Running
  | Succeeded
  | Failed
  | Retrying
  | Skipped
  deriving DecidableEq, Repr

/-- Modelled from the spec: terminal states are `Succeeded`, `Failed`,
`Skipped` (Glossary / §4.3 `is_resolved`). -/
def terminalState : TState → Bool
  | .Succeeded => true
  | .Failed => true
  | .Skipped => true
  | _ => false

/-- Modelled from the spec: the dependency graph.  Nodes are `0 .. n-1`
(Tasks and TaskGroups treated as compound nodes); `edges` is the
upstream → downstream relation built by `add_edge` (re-expressing the
source's `>>` chaining); `gates` lists the QualityGate nodes (the
`data_quality_check` / `cross_platform_validation` tasks of the source). -/
structure Graph where
  n : Nat
  edges : List (Nat × Nat)
  gates : List Nat
  deriving DecidableEq, Repr

/-- The upstream → downstream edge relation of a graph. -/
def Edge (g : Graph) (u v : Nat) : Prop := (u, v) ∈ g.edges

instance (g : Graph) (u v : Nat) : Decidable (Edge g u v) := by
  unfold Edge; infer_instance

/-- The upstream set of a node: sources of the edges into it. -/
def upstream (g : Graph) (v : Nat) : List Nat :=
  (g.edges.filter (fun p => p.2 == v)).map (fun p => p.1)

/-- Well-formedness: every edge endpoint is a node of the graph. -/
def Wf (g : Graph) : Prop := ∀ p ∈ g.edges, p.1 < g.n ∧ p.2 < g.n

instance (g : Graph) : Decidable (Wf g) := by
  unfold Wf; infer_instance

/-- Nonempty directed paths along the edge relation (used for "strictly
downstream"/descendant and for cycles). -/
inductive ReachP (g : Graph) : Nat → Nat → Prop where
  | single {u v : Nat} : Edge g u v → ReachP g u v
  | snoc {u w v : Nat} : ReachP g u w → Edge g w v → ReachP g u v

/-- Modelled from the spec: acyclicity — no node lies on a nonempty cycle
(§3 DependencyGraph invariant). -/
def Acyclic (g : Graph) : Prop := ∀ v, ¬ ReachP g v v

/-- Modelled from the spec: one round of Kahn-style topological sorting —
pick a remaining node all of whose upstream nodes are already removed,
append it to the order; fail when none exists (`validate()` performs a
topological sort, §4.3). -/
def kahnAux (g : Graph) : Nat → List Nat → List Nat → Except Unit (List Nat)
  | 0, rem, acc => if rem = [] then .ok acc else .error ()
  | fuel + 1, rem, acc =>
    if rem = [] then .ok acc
    else
      match rem.find? (fun v => decide (∀ u ∈ upstream g v, u ∉ rem)) with
      | some v => kahnAux g fuel (rem.erase v) (acc ++ [v])
      | none => .error ()

/-- Modelled from the spec: `validate()` — topological sort of all nodes;
`CycleError` (here `.error ()`) exactly when the graph is not a DAG. -/
def validate (g : Graph) : Except Unit (List Nat) :=
  kahnAux g g.n (List.range g.n) []

/-- Modelled from the spec: the external world of task actions.  `ok v k`
tells whether attempt `k` of node `v`'s action succeeds; `gate v` is the
`gate_result` (`true` = Pass) produced alongside success when `v` is a
QualityGate (§6 external interfaces). -/
structure Oracle where
  ok : Nat → Nat → Bool
  gate : Nat → Bool

/-- `retries` from the source DAG's `default_args` (`'retries': 2`). -/
def default_args_retries : Nat := 2

/-- `retry_delay` from the source DAG's `default_args`
(`timedelta(minutes=5)`), in seconds. -/
def default_args_retry_delay : Nat := 300

/-- Modelled from the spec: executing a task runs its action for at most
`1 + retries` attempts and succeeds iff some attempt succeeds (§4.1,
with the retry budget of the source's `default_args`). -/
def execTask (o : Oracle) (v : Nat) : Bool :=
  (List.range (1 + default_args_retries)).any (fun k => o.ok v k)

/-- Modelled from the spec: the scheduler's mutable view of a run —
per-node terminal states, recorded gate results, and the dispatch trace
(one event per `Pending → Running` transition, carrying the node and the
state snapshot at dispatch time). -/
structure RunState where
  finals : List TState
  gres : List (Option Bool)
  trace : List (Nat × List TState)
  deriving DecidableEq, Repr

/-- Modelled from the spec: readiness of a node — every upstream node is
`Succeeded` and no upstream gate resolved with `gate_result = Fail`
(§4.3 `ready_set()`). -/
def ready (g : Graph) (s : RunState) (v : Nat) : Bool :=
  decide (∀ u ∈ upstream g v,
    s.finals.getD u .Pending = .Succeeded ∧ s.gres.getD u none ≠ some false)

/-- Modelled from the spec: resolving one node.  A ready node is dispatched
(trace event), executed with retries, and ends `Succeeded` (recording the
gate result if it is a QualityGate) or `Failed`; a node that is not ready —
some upstream failed, was skipped, or gate-failed — is marked `Skipped`
(§4.3 ready set / §4.4 algorithm step d). -/
def processNode (g : Graph) (o : Oracle) (s : RunState) (v : Nat) : RunState :=
  if ready g s v then
    let t := s.trace ++ [(v, s.finals)]
    if execTask o v then
      { finals := s.finals.set v .Succeeded,
        gres := if v ∈ g.gates then s.gres.set v (some (o.gate v)) else s.gres,
        trace := t }
    else
      { finals := s.finals.set v .Failed, gres := s.gres, trace := t }
  else
    { finals := s.finals.set v .Skipped, gres := s.gres, trace := s.trace }

/-- Modelled from the spec: the dispatch loop — nodes are resolved along the
validated topological order (a deterministic dispatch order, §4.4
tie-break policy). -/
def runCore (g : Graph) (o : Oracle) (order : List Nat) (s : RunState) : RunState :=
  order.foldl (processNode g o) s

/-- Modelled from the spec: the run-level verdict (`Succeeded` iff every node
is `Succeeded`, §4.4 step 3). -/
inductive RunVerdict where
  | succeeded
  | failed
  deriving DecidableEq, Repr

/-- Result of a full run: node states, gate results, dispatch trace, verdict. -/
structure RunResult where
  finals : List TState
  gres : List (Option Bool)
  trace : List (Nat × List TState)
  verdict : RunVerdict
  deriving DecidableEq, Repr

/-- The initial scheduler state: every node `Pending`, no gate results,
empty trace. -/
def initState (g : Graph) : RunState :=
  { finals := List.replicate g.n .Pending,
    gres := List.replicate g.n none,
    trace := [] }

/-- Modelled from the spec: the whole scheduler (§4.4) — validate first
(fail fast on cycles, before any task executes), then drive the graph to
resolution and report the verdict. -/
def runPipeline (g : Graph) (o : Oracle) : Except Unit RunResult :=
  match validate g with
  | .error _ => .error ()
  | .ok order =>
    let s := runCore g o order (initState g)
    .ok { finals := s.finals, gres := s.gres, trace := s.trace,
          verdict := if s.finals.all (fun t => t == .Succeeded)
                     then .succeeded else .failed }

/-- Modelled from the spec: `is_resolved()` — every node is in a terminal
state (§4.3). -/
def isResolved (finals : List TState) : Bool :=
  finals.all terminalState

/-- Modelled from the spec: `TaskGroup.state` as a pure function of the
member states (§4.2): `Succeeded` iff all members succeeded, else `Failed`
if any member failed, else `Running` if any member is running or retrying,
else `Pending`. -/
def groupState (ms : List TState) : TState :=
  if ms.all (fun s => s == .Succeeded) then .Succeeded
  else if ms.any (fun s => s == .Failed) then .Failed
  else if ms.any (fun s => s == .Running || s == .Retrying) then .Running
  else .Pending

/-- Modelled from the spec: events driving a single task's state machine
(§4.1): dispatch, action success, action failure, retry-timer resumption. -/
inductive TEvent where
  | start
  | actionOk
  | actionFail
  | resume
  deriving DecidableEq, Repr

/-- A task's retry-relevant execution state: status, retries consumed, and
the pending retry-delay timer (seconds) when `Retrying`. -/
structure TaskM where
  st : TState
  attempts : Nat
  timer : Option Nat
  deriving DecidableEq, Repr

/-- Modelled from the spec: the single-task state machine (§4.1).
`Pending → Running` on start; `Running → Succeeded` on action success;
on action failure `Running → Retrying` with the retry-delay timer scheduled
while retries remain, else `Running → Failed`; `Retrying → Running` on
resumption; `Failed` and `Succeeded` are terminal. -/
def taskStep (retries delaySec : Nat) (m : TaskM) (e : TEvent) : TaskM :=
  match m.st, e with
  | .Pending, .start => { m with st := .Running }
  | .Running, .actionOk => { m with st := .Succeeded }
  | .Running, .actionFail =>
    if m.attempts < retries then
      { st := .Retrying, attempts := m.attempts + 1, timer := some delaySec }
    else
      { m with st := .Failed }
  | .Retrying, .resume => { m with st := .Running, timer := none }
  | _, _ => m

/-- A TaskGroup member as seen by the group's failure handler: its state and
whether it has received a cancellation signal. -/
structure Member where
  st : TState
  cancelled : Bool
  deriving DecidableEq, Repr

/-- Modelled from the spec: the cancellation applied to one sibling when a
group member fails — terminal siblings are left untouched, any other sibling
receives the cancellation signal and ends `Skipped`/ignored (§4.2, §5). -/
def cancelOne (m : Member) : Member :=
  if terminalState m.st then m else { st := .Skipped, cancelled := true }

/-- Modelled from the spec: the group failure handler — when member `j`
first enters `Failed`, every remaining sibling receives a cancellation
signal instead of being allowed to start or race to completion (§4.2, §5,
§7 `CancelledError`). -/
def cancelSiblings : List Member → Nat → List Member
  | [], _ => []
  | m :: ms, 0 => m :: ms.map cancelOne
  | m :: ms, j + 1 => cancelOne m :: cancelSiblings ms j

/-! ### List helper lemmas -/

lemma getD_set_self {α : Type} (l : List α) (i : Nat) (a d : α) (h : i < l.length) :
    (l.set i a).getD i d = a := by
  simp [List.getD_eq_getElem?_getD, List.getElem?_set_self, h]

lemma getD_set_ne {α : Type} (l : List α) {i j : Nat} (a d : α) (h : i ≠ j) :
    (l.set i a).getD j d = l.getD j d := by
  simp [List.getD_eq_getElem?_getD, List.getElem?_set_ne h]

lemma getD_replicate {α : Type} {n i : Nat} (a d : α) (h : i < n) :
    (List.replicate n a).getD i d = a := by
  simp [List.getD_eq_getElem?_getD, List.getElem?_replicate, h]

lemma getD_lt_length {α : Type} {l : List α} {i : Nat} {d x : α}
    (h : l.getD i d = x) (hne : x ≠ d) : i < l.length := by
  by_contra hge
  rw [List.getD_eq_getElem?_getD, List.getElem?_eq_none (by omega)] at h
  exact hne h.symm

lemma append_singleton_eq_split {α : Type} {acc : List α} {v w : α} {l₁ l₂ : List α}
    (h : acc ++ [v] = l₁ ++ w :: l₂) :
    (∃ l₂', acc = l₁ ++ w :: l₂' ∧ l₂ = l₂' ++ [v]) ∨ (l₁ = acc ∧ w = v ∧ l₂ = []) := by
  rcases List.eq_nil_or_concat l₂ with rfl | ⟨l₂', x, rfl⟩
  · right
    obtain ⟨h₁, h₂⟩ := List.append_inj' h rfl
    simp at h₂
    exact ⟨h₁.symm, h₂.symm, rfl⟩
  · left
    rw [List.concat_eq_append, ← List.cons_append, ← List.append_assoc] at h
    obtain ⟨h₁, h₂⟩ := List.append_inj' h rfl
    simp at h₂
    exact ⟨l₂', h₁, by rw [h₂]; exact List.concat_eq_append _ _⟩

lemma split_unique {α : Type} {a : α} :
    ∀ {l₁ l₂ m₁ m₂ : List α}, l₁ ++ a :: l₂ = m₁ ++ a :: m₂ →
      (l₁ ++ a :: l₂).Nodup → l₁ = m₁ ∧ l₂ = m₂ := by
  intro l₁
  induction l₁ with
  | nil =>
    intro l₂ m₁ m₂ h nd
    cases m₁ with
    | nil =>
      refine ⟨rfl, ?_⟩
      rw [List.nil_append, List.nil_append] at h
      simpa using h
    | cons y m₁' =>
      exfalso
      simp only [List.nil_append, List.cons_append] at h
      injection h with hxy hl
      have nd' : (a :: l₂).Nodup := by simpa using nd
      have hnd := (List.nodup_cons.1 nd').1
      exact hnd (hl ▸ List.mem_append_right m₁' (List.mem_cons_self _ _))
  | cons x l₁' ih =>
    intro l₂ m₁ m₂ h nd
    have nd' : x ∉ l₁' ++ a :: l₂ ∧ (l₁' ++ a :: l₂).Nodup := by
      rw [List.cons_append] at nd
      exact List.nodup_cons.1 nd
    cases m₁ with
    | nil =>
      exfalso
      simp only [List.cons_append, List.nil_append] at h
      injection h with hxy hl
      have hnd := nd'.1
      rw [hxy] at hnd
      exact hnd (List.mem_append_right l₁' (List.mem_cons_self _ _))
    | cons y m₁' =>
      simp only [List.cons_append] at h
      injection h with hxy hl
      obtain ⟨h₁, h₂⟩ := ih hl nd'.2
      exact ⟨by rw [hxy, h₁], h₂⟩

/-! ### Correctness of `validate` (Kahn-style topological sort) -/

lemma mem_upstream_iff {g : Graph} {u v : Nat} :
    u ∈ upstream g v ↔ (u, v) ∈ g.edges := by
  unfold upstream
  simp only [List.mem_map, List.mem_filter, beq_iff_eq]
  constructor
  · rintro ⟨p, ⟨hmem, hsnd⟩, hfst⟩
    have : p = (u, v) := by
      cases p; simp_all
    exact this ▸ hmem
  · intro h
    exact ⟨(u, v), ⟨h, rfl⟩, rfl⟩

lemma kahnAux_ok_inv (g : Graph) (hwf : Wf g) :
    ∀ (fuel : Nat) (rem acc L : List Nat),
      kahnAux g fuel rem acc = .ok L →
      rem.Nodup → acc.Nodup →
      (∀ v ∈ acc, v ∉ rem) →
      (∀ v ∈ rem, v < g.n) → (∀ v ∈ acc, v < g.n) →
      (∀ v, v < g.n → v ∈ acc ∨ v ∈ rem) →
      (∀ p ∈ g.edges, ∀ l₁ l₂, acc = l₁ ++ p.2 :: l₂ → p.1 ∈ l₁) →
      L.Nodup ∧ (∀ v, v < g.n → v ∈ L) ∧ (∀ v ∈ L, v < g.n) ∧
        (∀ p ∈ g.edges, ∀ l₁ l₂, L = l₁ ++ p.2 :: l₂ → p.1 ∈ l₁) := by
  intro fuel
  induction fuel with
  | zero =>
    intro rem acc L hok ndr nda hdisj hremn haccn hcov hord
    by_cases hre : rem = []
    · simp [kahnAux, hre] at hok
      subst hok
      refine ⟨nda, ?_, haccn, hord⟩
      intro v hv
      rcases hcov v hv with h | h
      · exact h
      · exact absurd h (by simp [hre])
    · simp [kahnAux, hre] at hok
  | succ fuel ih =>
    intro rem acc L hok ndr nda hdisj hremn haccn hcov hord
    by_cases hre : rem = []
    · simp [kahnAux, hre] at hok
      subst hok
      refine ⟨nda, ?_, haccn, hord⟩
      intro v hv
      rcases hcov v hv with h | h
      · exact h
      · exact absurd h (by simp [hre])
    · rw [kahnAux, if_neg hre] at hok
      cases hfind : rem.find? (fun v => decide (∀ u ∈ upstream g v, u ∉ rem)) with
      | none => rw [hfind] at hok; exact absurd hok (by simp)
      | some v =>
        rw [hfind] at hok
        have hvrem : v ∈ rem := List.mem_of_find?_eq_some hfind
        have hpred := List.find?_some hfind
        have hvsrc : ∀ u ∈ upstream g v, u ∉ rem := by simpa using hpred
        have hvacc : v ∉ acc := fun hva => hdisj v hva hvrem
        refine ih (rem.erase v) (acc ++ [v]) L hok (ndr.erase v) ?_ ?_ ?_ ?_ ?_ ?_
        · rw [List.nodup_append]
          refine ⟨nda, by simp, ?_⟩
          intro a ha hav
          simp at hav
          exact hvacc (hav ▸ ha)
        · intro w hw hwrem
          rcases List.mem_append.1 hw with hw | hw
          · exact hdisj w hw (List.erase_subset _ _ hwrem)
          · simp at hw
            subst hw
            exact ((ndr.mem_erase_iff).1 hwrem).1 rfl
        · intro w hw
          exact hremn w (List.erase_subset _ _ hw)
        · intro w hw
          rcases List.mem_append.1 hw with hw | hw
          · exact haccn w hw
          · simp at hw; rw [hw]; exact hremn v hvrem
        · intro w hwn
          rcases hcov w hwn with hw | hw
          · exact Or.inl (List.mem_append_left _ hw)
          · by_cases hwv : w = v
            · exact Or.inl (List.mem_append_right _ (by simp [hwv]))
            · exact Or.inr ((List.mem_erase_of_ne hwv).2 hw)
        · intro p hp l₁ l₂ hsplit
          rcases append_singleton_eq_split hsplit with ⟨l₂', hacc, _⟩ | ⟨hl₁, hwv, _⟩
          · exact hord p hp l₁ l₂' hacc
          · subst hl₁
            have hup : p.1 ∈ upstream g v := by
              rw [mem_upstream_iff, ← hwv]
              exact hp
            have hp1 : p.1 ∉ rem := hvsrc p.1 hup
            rcases hcov p.1 (hwf p hp).1 with h | h
            · exact h
            · exact absurd h hp1

lemma validate_ok_inv {g : Graph} {L : List Nat} (hwf : Wf g) (h : validate g = .ok L) :
    L.Nodup ∧ (∀ v, v < g.n → v ∈ L) ∧ (∀ v ∈ L, v < g.n) ∧
      (∀ p ∈ g.edges, ∀ l₁ l₂, L = l₁ ++ p.2 :: l₂ → p.1 ∈ l₁) := by
  refine kahnAux_ok_inv g hwf g.n (List.range g.n) [] L h (List.nodup_range _)
    (by simp) (by simp) (fun v hv => List.mem_range.1 hv) (by simp)
    (fun v hv => Or.inr (List.mem_range.2 hv)) ?_
  intro p hp l₁ l₂ hsplit
  exact absurd hsplit (by cases l₁ <;> simp)

lemma reach_before {g : Graph} {L : List Nat} (hwf : Wf g) (hok : validate g = .ok L)
    {u v : Nat} (hr : ReachP g u v) :
    ∃ l₁ l₂, L = l₁ ++ v :: l₂ ∧ u ∈ l₁ := by
  obtain ⟨hnd, hcov, _, hord⟩ := validate_ok_inv hwf hok
  induction hr with
  | @single b he =>
    obtain ⟨l₁, l₂, hsplit⟩ := List.append_of_mem (hcov b (hwf _ he).2)
    exact ⟨l₁, l₂, hsplit, hord (u, b) he l₁ l₂ hsplit⟩
  | @snoc w b hr he ihr =>
    obtain ⟨m₁, m₂, hm, hu⟩ := ihr
    obtain ⟨l₁, l₂, hsplit⟩ := List.append_of_mem (hcov b (hwf _ he).2)
    have hw : w ∈ l₁ := hord (w, b) he l₁ l₂ hsplit
    obtain ⟨la, lb, hl₁⟩ := List.append_of_mem hw
    have hL : L = la ++ w :: (lb ++ b :: l₂) := by
      rw [hsplit, hl₁]; simp
    have hnd' : (m₁ ++ w :: m₂).Nodup := hm ▸ hnd
    obtain ⟨hma, _⟩ := split_unique (hm.symm.trans hL) hnd'
    refine ⟨l₁, l₂, hsplit, ?_⟩
    rw [hl₁]
    exact List.mem_append_left _ (hma ▸ hu)

lemma validate_ok_acyclic {g : Graph} {L : List Nat} (hwf : Wf g)
    (hok : validate g = .ok L) : Acyclic g := by
  intro v hr
  obtain ⟨hnd, _, _, _⟩ := validate_ok_inv hwf hok
  obtain ⟨l₁, l₂, hsplit, hv⟩ := reach_before hwf hok hr
  rw [hsplit, List.nodup_append] at hnd
  exact hnd.2.2 hv (by simp)

lemma ReachP.head {g : Graph} {u w v : Nat} (e : Edge g u w) (hr : ReachP g w v) :
    ReachP g u v := by
  induction hr with
  | single e' => exact .snoc (.single e) e'
  | snoc hr e' ih => exact .snoc ih e'

lemma cycle_of_preds (g : Graph) (rem : List Nat) (v₀ : Nat) (h₀ : v₀ ∈ rem)
    (h : ∀ v ∈ rem, ∃ u ∈ rem, Edge g u v) : ∃ v, ReachP g v v := by
  choose f hfmem hfedge using h
  let seq : Nat → {x : Nat // x ∈ rem} :=
    fun k => Nat.rec ⟨v₀, h₀⟩ (fun _ p => ⟨f p.1 p.2, hfmem p.1 p.2⟩) k
  have hstep : ∀ k, Edge g (seq (k + 1)).1 (seq k).1 :=
    fun k => hfedge (seq k).1 (seq k).2
  have chain : ∀ d k, ReachP g (seq (k + d + 1)).1 (seq k).1 := by
    intro d
    induction d with
    | zero => intro k; exact .single (hstep k)
    | succ d ih =>
      intro k
      have e : Edge g (seq (k + d + 2)).1 (seq (k + d + 1)).1 := hstep (k + d + 1)
      have : ReachP g (seq (k + d + 2)).1 (seq k).1 := ReachP.head e (ih k)
      have harith : k + (d + 1) + 1 = k + d + 2 := by omega
      rw [harith]
      exact this
  have hcard : rem.toFinset.card < Fintype.card (Fin (rem.length + 1)) := by
    have := rem.toFinset_card_le
    simp only [Fintype.card_fin]
    omega
  obtain ⟨i, _, j, _, hne, heq⟩ :=
    Finset.exists_ne_map_eq_of_card_lt_of_maps_to (s := (Finset.univ : Finset (Fin (rem.length + 1))))
      (t := rem.toFinset) (by simpa using hcard)
      (fun i _ => by simp [List.mem_toFinset]; exact (seq i.1).2)
  rcases Nat.lt_or_ge i.1 j.1 with hij | hij
  · obtain ⟨d, hd⟩ : ∃ d, j.1 = i.1 + d + 1 := ⟨j.1 - i.1 - 1, by omega⟩
    have hreach := chain d i.1
    rw [← hd] at hreach
    rw [show (seq i.1).1 = (seq j.1).1 from heq] at hreach
    exact ⟨(seq j.1).1, hreach⟩
  · have hij' : j.1 < i.1 := by
      rcases Nat.lt_or_ge j.1 i.1 with h' | h'
      · exact h'
      · exact absurd (Fin.val_injective (by omega)) hne
    obtain ⟨d, hd⟩ : ∃ d, i.1 = j.1 + d + 1 := ⟨i.1 - j.1 - 1, by omega⟩
    have hreach := chain d j.1
    rw [← hd] at hreach
    rw [show (seq j.1).1 = (seq i.1).1 from heq.symm] at hreach
    exact ⟨(seq i.1).1, hreach⟩

lemma kahnAux_ok_of_acyclic (g : Graph) (hac : Acyclic g) :
    ∀ (fuel : Nat) (rem acc : List Nat), rem.length ≤ fuel →
      ∃ L, kahnAux g fuel rem acc = .ok L := by
  intro fuel
  induction fuel with
  | zero =>
    intro rem acc hlen
    have : rem = [] := List.length_eq_zero.1 (by omega)
    exact ⟨acc, by simp [kahnAux, this]⟩
  | succ fuel ih =>
    intro rem acc hlen
    by_cases hre : rem = []
    · exact ⟨acc, by simp [kahnAux, hre]⟩
    · cases hfind : rem.find? (fun v => decide (∀ u ∈ upstream g v, u ∉ rem)) with
      | some v =>
        have hvrem : v ∈ rem := List.mem_of_find?_eq_some hfind
        obtain ⟨L, hL⟩ := ih (rem.erase v) (acc ++ [v]) (by
          rw [List.length_erase_of_mem hvrem]
          have : 1 ≤ rem.length := List.length_pos.2 hre
          omega)
        exact ⟨L, by rw [kahnAux, if_neg hre, hfind]; exact hL⟩
      | none =>
        exfalso
        have hall : ∀ v ∈ rem, ∃ u ∈ upstream g v, u ∈ rem := by
          intro v hv
          have := List.find?_eq_none.1 hfind v hv
          simp at this
          obtain ⟨u, hu₁, hu₂⟩ := this
          exact ⟨u, hu₁, hu₂⟩
        have hpreds : ∀ v ∈ rem, ∃ u ∈ rem, Edge g u v := by
          intro v hv
          obtain ⟨u, hu₁, hu₂⟩ := hall v hv
          exact ⟨u, hu₂, mem_upstream_iff.1 hu₁⟩
        obtain ⟨v₀, hv₀⟩ := List.exists_mem_of_ne_nil rem hre
        obtain ⟨v, hv⟩ := cycle_of_preds g rem v₀ hv₀ hpreds
        exact hac v hv

lemma validate_ok_of_acyclic {g : Graph} (hac : Acyclic g) :
    ∃ L, validate g = .ok L := by
  unfold validate
  exact kahnAux_ok_of_acyclic g hac g.n (List.range g.n) [] (by simp)

/-! ### Basic properties of the dispatch loop -/

lemma processNode_finals_length (g : Graph) (o : Oracle) (s : RunState) (v : Nat) :
    (processNode g o s v).finals.length = s.finals.length := by
  unfold processNode
  split_ifs <;> simp

lemma processNode_gres_length (g : Graph) (o : Oracle) (s : RunState) (v : Nat) :
    (processNode g o s v).gres.length = s.gres.length := by
  unfold processNode
  split_ifs <;> simp

lemma runCore_finals_length (g : Graph) (o : Oracle) :
    ∀ (l : List Nat) (s : RunState), (runCore g o l s).finals.length = s.finals.length := by
  intro l
  induction l with
  | nil => intro s; rfl
  | cons v l' ih =>
    intro s
    show (runCore g o l' (processNode g o s v)).finals.length = _
    rw [ih, processNode_finals_length]

lemma runCore_gres_length (g : Graph) (o : Oracle) :
    ∀ (l : List Nat) (s : RunState), (runCore g o l s).gres.length = s.gres.length := by
  intro l
  induction l with
  | nil => intro s; rfl
  | cons v l' ih =>
    intro s
    show (runCore g o l' (processNode g o s v)).gres.length = _
    rw [ih, processNode_gres_length]

lemma processNode_finals_getD_ne (g : Graph) (o : Oracle) (s : RunState) {v w : Nat}
    (h : v ≠ w) (d : TState) :
    (processNode g o s v).finals.getD w d = s.finals.getD w d := by
  unfold processNode
  split_ifs <;> simp [List.getElem?_set_ne h]

lemma processNode_gres_getD_ne (g : Graph) (o : Oracle) (s : RunState) {v w : Nat}
    (h : v ≠ w) (d : Option Bool) :
    (processNode g o s v).gres.getD w d = s.gres.getD w d := by
  unfold processNode
  split_ifs <;> simp [List.getElem?_set_ne h]

lemma runCore_finals_stable (g : Graph) (o : Oracle) :
    ∀ (l : List Nat) (s : RunState) (v : Nat) (d : TState), v ∉ l →
      (runCore g o l s).finals.getD v d = s.finals.getD v d := by
  intro l
  induction l with
  | nil => intro s v d _; rfl
  | cons w l' ih =>
    intro s v d hv
    have hvw : w ≠ v := fun h => hv (h ▸ List.mem_cons_self _ _)
    have hvl' : v ∉ l' := fun h => hv (List.mem_cons_of_mem _ h)
    show (runCore g o l' (processNode g o s w)).finals.getD v d = _
    rw [ih _ _ _ hvl', processNode_finals_getD_ne g o s hvw]

lemma runCore_gres_stable (g : Graph) (o : Oracle) :
    ∀ (l : List Nat) (s : RunState) (v : Nat) (d : Option Bool), v ∉ l →
      (runCore g o l s).gres.getD v d = s.gres.getD v d := by
  intro l
  induction l with
  | nil => intro s v d _; rfl
  | cons w l' ih =>
    intro s v d hv
    have hvw : w ≠ v := fun h => hv (h ▸ List.mem_cons_self _ _)
    have hvl' : v ∉ l' := fun h => hv (List.mem_cons_of_mem _ h)
    show (runCore g o l' (processNode g o s w)).gres.getD v d = _
    rw [ih _ _ _ hvl', processNode_gres_getD_ne g o s hvw]

lemma ready_spec {g : Graph} {s : RunState} {v : Nat} (h : ready g s v = true) :
    ∀ u ∈ upstream g v,
      s.finals.getD u .Pending = .Succeeded ∧ s.gres.getD u none ≠ some false := by
  exact of_decide_eq_true h

/-- Dispatch-guard invariant: every event in the trace records a node whose
upstream nodes were all `Succeeded` in the recorded snapshot. -/
lemma runCore_trace_inv (g : Graph) (o : Oracle) :
    ∀ (l : List Nat) (s : RunState),
      (∀ e ∈ s.trace, ∀ u ∈ upstream g e.1, e.2.getD u .Pending = .Succeeded) →
      ∀ e ∈ (runCore g o l s).trace, ∀ u ∈ upstream g e.1,
        e.2.getD u .Pending = .Succeeded := by
  intro l
  induction l with
  | nil => intro s hs; exact hs
  | cons v l' ih =>
    intro s hs
    show ∀ e ∈ (runCore g o l' (processNode g o s v)).trace, _
    refine ih (processNode g o s v) ?_
    intro e he
    by_cases hr : ready g s v = true
    · have htr : (processNode g o s v).trace = s.trace ++ [(v, s.finals)] := by
        unfold processNode
        rw [if_pos hr]
        by_cases hex : execTask o v = true <;> simp [hex]
      rw [htr] at he
      rcases List.mem_append.1 he with he | he
      · exact hs e he
      · simp at he
        subst he
        intro u hu
        exact (ready_spec hr u hu).1
    · have htr : (processNode g o s v).trace = s.trace := by
        unfold processNode
        rw [if_neg hr]
      rw [htr] at he
      exact hs e he

lemma processNode_finals_getD_self (g : Graph) (o : Oracle) (s : RunState) {v : Nat}
    (h : v < s.finals.length) :
    terminalState ((processNode g o s v).finals.getD v .Pending) = true := by
  unfold processNode
  split_ifs <;> simp [List.getD_eq_getElem?_getD, List.getElem?_set_self, h, terminalState]

/-- Every node that appears in the processed list ends in a terminal state. -/
lemma runCore_terminal (g : Graph) (o : Oracle) :
    ∀ (l : List Nat) (s : RunState),
      s.finals.length = g.n →
      (∀ v ∈ l, v < g.n) →
      (∀ i, i < g.n → i ∈ l ∨ terminalState (s.finals.getD i .Pending) = true) →
      ∀ i, i < g.n → terminalState ((runCore g o l s).finals.getD i .Pending) = true := by
  intro l
  induction l with
  | nil =>
    intro s _ _ hcov i hi
    rcases hcov i hi with h | h
    · exact absurd h (by simp)
    · exact h
  | cons v l' ih =>
    intro s hlen hbound hcov i hi
    show terminalState ((runCore g o l' (processNode g o s v)).finals.getD i .Pending) = true
    refine ih (processNode g o s v) (by rw [processNode_finals_length, hlen]) ?_ ?_ i hi
    · intro w hw; exact hbound w (List.mem_cons_of_mem _ hw)
    · intro j hj
      rcases hcov j hj with hjl | hjterm
      · rcases List.mem_cons.1 hjl with hjv | hjl'
        · subst hjv
          exact Or.inr (processNode_finals_getD_self g o s
            (by rw [hlen]; exact hbound j (List.mem_cons_self _ _)))
        · exact Or.inl hjl'
      · by_cases hjv : j = v
        · subst hjv
          exact Or.inr (processNode_finals_getD_self g o s
            (by rw [hlen]; exact hj))
        · rw [processNode_finals_getD_ne g o s (fun h => hjv h.symm)]
          exact Or.inr hjterm

lemma runCore_append_cons (g : Graph) (o : Oracle) (l₁ : List Nat) (v : Nat)
    (l₂ : List Nat) (s : RunState) :
    runCore g o (l₁ ++ v :: l₂) s =
      runCore g o l₂ (processNode g o (runCore g o l₁ s) v) := by
  unfold runCore
  rw [List.foldl_append]
  rfl

lemma getD_set_self_or {α : Type} (l : List α) (i : Nat) (a d : α) :
    (l.set i a).getD i d = if i < l.length then a else d := by
  by_cases h : i < l.length
  · rw [if_pos h]; exact getD_set_self l i a d h
  · rw [if_neg h]
    rw [List.getD_eq_getElem?_getD, List.getElem?_eq_none (by simp; omega)]
    rfl

/-- A node with a blocked upstream (not `Succeeded`, or a gate that resolved
`Fail`) is marked `Skipped` by the dispatch loop. -/
lemma blocked_node_skipped (g : Graph) (o : Oracle) {L : List Nat} (hnd : L.Nodup)
    {u b : Nat} (he : Edge g u b) (hb : b ∈ L) (hbn : b < g.n)
    (hord : ∀ p ∈ g.edges, ∀ l₁ l₂, L = l₁ ++ p.2 :: l₂ → p.1 ∈ l₁)
    (hblock : (runCore g o L (initState g)).finals.getD u .Pending ≠ .Succeeded
              ∨ (runCore g o L (initState g)).gres.getD u none = some false) :
    (runCore g o L (initState g)).finals.getD b .Pending = .Skipped := by
  obtain ⟨l₁, l₂, hL⟩ := List.append_of_mem hb
  have hu₁ : u ∈ l₁ := hord (u, b) he l₁ l₂ hL
  have hnd' : (l₁ ++ b :: l₂).Nodup := hL ▸ hnd
  rw [List.nodup_append] at hnd'
  have hub : u ∉ b :: l₂ := hnd'.2.2 hu₁
  have hune : u ≠ b := fun h => hub (h ▸ List.mem_cons_self _ _)
  have hul₂ : u ∉ l₂ := fun h => hub (List.mem_cons_of_mem _ h)
  have hbl₂ : b ∉ l₂ := (List.nodup_cons.1 hnd'.2.1).1
  have hE : runCore g o L (initState g) =
      runCore g o l₂ (processNode g o (runCore g o l₁ (initState g)) b) := by
    rw [hL, runCore_append_cons]
  have hfu : (runCore g o L (initState g)).finals.getD u .Pending =
      (runCore g o l₁ (initState g)).finals.getD u .Pending := by
    rw [hE, runCore_finals_stable g o l₂ _ u _ hul₂,
      processNode_finals_getD_ne g o _ (fun h => hune h.symm)]
  have hgu : (runCore g o L (initState g)).gres.getD u none =
      (runCore g o l₁ (initState g)).gres.getD u none := by
    rw [hE, runCore_gres_stable g o l₂ _ u _ hul₂,
      processNode_gres_getD_ne g o _ (fun h => hune h.symm)]
  have hready : ready g (runCore g o l₁ (initState g)) b = false := by
    rcases Bool.eq_false_or_eq_true (ready g (runCore g o l₁ (initState g)) b) with h | h
    · exfalso
      have hspec := ready_spec h u (mem_upstream_iff.2 he)
      rcases hblock with hbl | hbl
      · exact hbl (hfu ▸ hspec.1)
      · exact hspec.2 (hgu ▸ hbl)
    · exact h
  have hlen : b < (runCore g o l₁ (initState g)).finals.length := by
    rw [runCore_finals_length]
    simp [initState]
    omega
  rw [hE, runCore_finals_stable g o l₂ _ b _ hbl₂]
  have hproc : (processNode g o (runCore g o l₁ (initState g)) b).finals =
      (runCore g o l₁ (initState g)).finals.set b .Skipped := by
    unfold processNode
    rw [hready]
    simp
  rw [hproc, getD_set_self _ _ _ _ hlen]

/-- Gate-failure propagation: if a gate ends with recorded `gate_result =
Fail`, every strict descendant ends `Skipped`. -/
lemma gate_fail_skips (g : Graph) (o : Oracle) {L : List Nat} {gate : Nat}
    (hwf : Wf g) (hv : validate g = .ok L)
    (hgres : (runCore g o L (initState g)).gres.getD gate none = some false) :
    ∀ v, ReachP g gate v →
      (runCore g o L (initState g)).finals.getD v .Pending = .Skipped := by
  obtain ⟨hnd, hcov, hbnd, hord⟩ := validate_ok_inv hwf hv
  intro v hr
  induction hr with
  | @single b he =>
    exact blocked_node_skipped g o hnd he (hcov b (hwf _ he).2) (hwf _ he).2 hord
      (Or.inr hgres)
  | @snoc w b hp he ih =>
    refine blocked_node_skipped g o hnd he (hcov b (hwf _ he).2) (hwf _ he).2 hord
      (Or.inl ?_)
    rw [ih]
    simp

lemma getD_set_agree {α : Type} {l₁ l₂ : List α} (hlen : l₁.length = l₂.length)
    {w : Nat} {a₁ a₂ : α} (ha : a₁ = a₂) {v : Nat} (d : α)
    (hbase : l₁.getD v d = l₂.getD v d) :
    (l₁.set w a₁).getD v d = (l₂.set w a₂).getD v d := by
  by_cases hvw : w = v
  · subst hvw
    rw [getD_set_self_or, getD_set_self_or, hlen, ha]
  · rw [getD_set_ne _ _ _ hvw, getD_set_ne _ _ _ hvw]
    exact hbase

/-- Non-interference of a gate's result: two runs whose oracles agree on all
action outcomes and on every gate result except `gate`'s produce the same
final state on every node that is not strictly downstream of `gate`. -/
lemma runCore_agree (g : Graph) (o₁ o₂ : Oracle) (gate : Nat)
    (hok : o₁.ok = o₂.ok) (hg : ∀ w, w ≠ gate → o₁.gate w = o₂.gate w) :
    ∀ (l : List Nat) (s₁ s₂ : RunState),
      s₁.finals.length = s₂.finals.length →
      s₁.gres.length = s₂.gres.length →
      (∀ v, ¬ ReachP g gate v → s₁.finals.getD v .Pending = s₂.finals.getD v .Pending) →
      (∀ v, ¬ ReachP g gate v → v ≠ gate → s₁.gres.getD v none = s₂.gres.getD v none) →
      ∀ v, ¬ ReachP g gate v →
        (runCore g o₁ l s₁).finals.getD v .Pending =
          (runCore g o₂ l s₂).finals.getD v .Pending := by
  intro l
  induction l with
  | nil => intro s₁ s₂ _ _ hf _ v hv; exact hf v hv
  | cons w l' ih =>
    intro s₁ s₂ hlenf hleng hf hr v hv
    show (runCore g o₁ l' (processNode g o₁ s₁ w)).finals.getD v .Pending =
      (runCore g o₂ l' (processNode g o₂ s₂ w)).finals.getD v .Pending
    have hlenf' : (processNode g o₁ s₁ w).finals.length =
        (processNode g o₂ s₂ w).finals.length := by
      rw [processNode_finals_length, processNode_finals_length, hlenf]
    have hleng' : (processNode g o₁ s₁ w).gres.length =
        (processNode g o₂ s₂ w).gres.length := by
      rw [processNode_gres_length, processNode_gres_length, hleng]
    by_cases hdesc : ReachP g gate w
    · refine ih (processNode g o₁ s₁ w) (processNode g o₂ s₂ w) hlenf' hleng' ?_ ?_ v hv
      · intro x hx
        have hxw : w ≠ x := fun h => hx (h ▸ hdesc)
        rw [processNode_finals_getD_ne g o₁ s₁ hxw,
          processNode_finals_getD_ne g o₂ s₂ hxw]
        exact hf x hx
      · intro x hx hxg
        have hxw : w ≠ x := fun h => hx (h ▸ hdesc)
        rw [processNode_gres_getD_ne g o₁ s₁ hxw,
          processNode_gres_getD_ne g o₂ s₂ hxw]
        exact hr x hx hxg
    · have hupok : ∀ u ∈ upstream g w,
          s₁.finals.getD u .Pending = s₂.finals.getD u .Pending ∧
          s₁.gres.getD u none = s₂.gres.getD u none := by
        intro u hu
        have he : Edge g u w := mem_upstream_iff.1 hu
        have hund : ¬ ReachP g gate u := fun h => hdesc (.snoc h he)
        have hung : u ≠ gate := fun h => hdesc (.single (h ▸ he))
        exact ⟨hf u hund, hr u hund hung⟩
      have hru : ready g s₁ w = ready g s₂ w := by
        unfold ready
        apply decide_eq_decide.2
        constructor
        · intro h u hu
          have hcomp := hupok u hu
          rw [← hcomp.1, ← hcomp.2]
          exact h u hu
        · intro h u hu
          have hcomp := hupok u hu
          rw [hcomp.1, hcomp.2]
          exact h u hu
      have hex : execTask o₁ w = execTask o₂ w := by
        unfold execTask
        rw [hok]
      have hfs' : ∀ x, ¬ ReachP g gate x →
          (processNode g o₁ s₁ w).finals.getD x .Pending =
            (processNode g o₂ s₂ w).finals.getD x .Pending := by
        intro x hx
        by_cases hr1 : ready g s₁ w = true
        · have hr2 : ready g s₂ w = true := by rw [← hru]; exact hr1
          by_cases hex1 : execTask o₁ w = true
          · have hex2 : execTask o₂ w = true := by rw [← hex]; exact hex1
            have e₁ : (processNode g o₁ s₁ w).finals = s₁.finals.set w .Succeeded := by
              unfold processNode; rw [if_pos hr1, if_pos hex1]
            have e₂ : (processNode g o₂ s₂ w).finals = s₂.finals.set w .Succeeded := by
              unfold processNode; rw [if_pos hr2, if_pos hex2]
            rw [e₁, e₂]
            exact getD_set_agree hlenf rfl _ (hf x hx)
          · have hex2 : ¬ execTask o₂ w = true := by rw [← hex]; exact hex1
            have e₁ : (processNode g o₁ s₁ w).finals = s₁.finals.set w .Failed := by
              unfold processNode; rw [if_pos hr1, if_neg hex1]
            have e₂ : (processNode g o₂ s₂ w).finals = s₂.finals.set w .Failed := by
              unfold processNode; rw [if_pos hr2, if_neg hex2]
            rw [e₁, e₂]
            exact getD_set_agree hlenf rfl _ (hf x hx)
        · have hr2 : ¬ ready g s₂ w = true := by rw [← hru]; exact hr1
          have e₁ : (processNode g o₁ s₁ w).finals = s₁.finals.set w .Skipped := by
            unfold processNode; rw [if_neg hr1]
          have e₂ : (processNode g o₂ s₂ w).finals = s₂.finals.set w .Skipped := by
            unfold processNode; rw [if_neg hr2]
          rw [e₁, e₂]
          exact getD_set_agree hlenf rfl _ (hf x hx)
      have hrs' : ∀ x, ¬ ReachP g gate x → x ≠ gate →
          (processNode g o₁ s₁ w).gres.getD x none =
            (processNode g o₂ s₂ w).gres.getD x none := by
        intro x hx hxg
        by_cases hr1 : ready g s₁ w = true
        · have hr2 : ready g s₂ w = true := by rw [← hru]; exact hr1
          by_cases hex1 : execTask o₁ w = true
          · have hex2 : execTask o₂ w = true := by rw [← hex]; exact hex1
            have e₁ : (processNode g o₁ s₁ w).gres =
                if w ∈ g.gates then s₁.gres.set w (some (o₁.gate w)) else s₁.gres := by
              unfold processNode; rw [if_pos hr1, if_pos hex1]
            have e₂ : (processNode g o₂ s₂ w).gres =
                if w ∈ g.gates then s₂.gres.set w (some (o₂.gate w)) else s₂.gres := by
              unfold processNode; rw [if_pos hr2, if_pos hex2]
            rw [e₁, e₂]
            by_cases hwg : w ∈ g.gates
            · rw [if_pos hwg, if_pos hwg]
              by_cases hwgate : w = gate
              · have hwx : w ≠ x := fun h => hxg (h ▸ hwgate)
                rw [getD_set_ne _ _ _ hwx, getD_set_ne _ _ _ hwx]
                exact hr x hx hxg
              · exact getD_set_agree hleng (by rw [hg w hwgate]) _ (hr x hx hxg)
            · rw [if_neg hwg, if_neg hwg]
              exact hr x hx hxg
          · have hex2 : ¬ execTask o₂ w = true := by rw [← hex]; exact hex1
            have e₁ : (processNode g o₁ s₁ w).gres = s₁.gres := by
              unfold processNode; rw [if_pos hr1, if_neg hex1]
            have e₂ : (processNode g o₂ s₂ w).gres = s₂.gres := by
              unfold processNode; rw [if_pos hr2, if_neg hex2]
            rw [e₁, e₂]
            exact hr x hx hxg
        · have hr2 : ¬ ready g s₂ w = true := by rw [← hru]; exact hr1
          have e₁ : (processNode g o₁ s₁ w).gres = s₁.gres := by
            unfold processNode; rw [if_neg hr1]
          have e₂ : (processNode g o₂ s₂ w).gres = s₂.gres := by
            unfold processNode; rw [if_neg hr2]
          rw [e₁, e₂]
          exact hr x hx hxg
      exact ih (processNode g o₁ s₁ w) (processNode g o₂ s₂ w) hlenf' hleng' hfs' hrs' v hv

lemma runPipeline_ok_elim {g : Graph} {o : Oracle} {r : RunResult}
    (h : runPipeline g o = .ok r) :
    ∃ L, validate g = .ok L ∧
      r.finals = (runCore g o L (initState g)).finals ∧
      r.gres = (runCore g o L (initState g)).gres ∧
      r.trace = (runCore g o L (initState g)).trace ∧
      r.verdict = (if (runCore g o L (initState g)).finals.all
          (fun t => t == .Succeeded) then RunVerdict.succeeded else .failed) := by
  unfold runPipeline at h
  cases hv : validate g with
  | error e => rw [hv] at h; exact absurd h (by simp)
  | ok L =>
    rw [hv] at h
    simp only [Except.ok.injEq] at h
    subst h
    exact ⟨L, rfl, rfl, rfl, rfl, rfl⟩

lemma all_succeeded_iff_getD (l : List TState) :
    l.all (fun t => t == .Succeeded) = true ↔
      ∀ i, i < l.length → l.getD i .Pending = .Succeeded := by
  rw [List.all_eq_true]
  constructor
  · intro h i hi
    have hmem : l.getD i .Pending = l[i] := by
      rw [List.getD_eq_getElem?_getD, List.getElem?_eq_getElem hi]
      rfl
    rw [hmem]
    have := h _ (List.getElem_mem hi)
    simpa using this
  · intro h x hx
    obtain ⟨i, hi, rfl⟩ := List.mem_iff_getElem.1 hx
    have := h i hi
    rw [List.getD_eq_getElem?_getD, List.getElem?_eq_getElem hi] at this
    simpa using this

/-- C1: a node is never dispatched (never transitions `Pending → Running`)
while any of its upstream nodes is not in the terminal success state
`Succeeded`: every dispatch event of any run records a snapshot in which
every upstream node of the dispatched node is `Succeeded`; a task with an
unmet upstream is never dispatched and therefore stays `Pending` until its
fate is decided. -/
theorem scheduler_never_dispatches_with_unmet_upstream
    (g : Graph) (o : Oracle) (r : RunResult) (h : runPipeline g o = .ok r)
    (v : Nat) (snap : List TState) (hmem : (v, snap) ∈ r.trace)
    (u : Nat) (hu : Edge g u v) :
    snap.getD u .Pending = .Succeeded := by
  obtain ⟨L, _, _, _, htr, _⟩ := runPipeline_ok_elim h
  rw [htr] at hmem
  exact runCore_trace_inv g o L (initState g)
    (by intro e he; exact absurd he (by simp [initState]))
    (v, snap) hmem u (mem_upstream_iff.2 hu)

/-- C3: the run verdict is `Succeeded` iff every node of the graph ends in
state `Succeeded`; any other terminal assignment yields `Failed` (the
verdict type has only these two values). -/
theorem run_verdict_iff_all_succeeded (g : Graph) (o : Oracle) (r : RunResult)
    (h : runPipeline g o = .ok r) :
    (r.verdict = .succeeded ↔ ∀ v, v < g.n → r.finals.getD v .Pending = .Succeeded)
    ∧ (r.verdict = .succeeded ∨ r.verdict = .failed) := by
  obtain ⟨L, hL, hfin, _, _, hver⟩ := runPipeline_ok_elim h
  have hlen : (runCore g o L (initState g)).finals.length = g.n := by
    rw [runCore_finals_length]
    simp [initState]
  constructor
  · rw [hver]
    constructor
    · intro hv v hvn
      by_cases hall : (runCore g o L (initState g)).finals.all
          (fun t => t == .Succeeded) = true
      · rw [hfin]
        exact (all_succeeded_iff_getD _).1 hall v (by rw [hlen]; exact hvn)
      · rw [if_neg hall] at hv
        exact absurd hv (by simp)
    · intro hall
      rw [if_pos ((all_succeeded_iff_getD _).2 (fun i hi => by
        rw [← hfin]
        exact hall i (by rw [← hlen]; exact hi)))]
  · rw [hver]
    by_cases hall : (runCore g o L (initState g)).finals.all
        (fun t => t == .Succeeded) = true
    · rw [if_pos hall]; exact Or.inl rfl
    · rw [if_neg hall]; exact Or.inr rfl

/-- C5: `validate` succeeds exactly when the dependency graph is acyclic,
and on a cyclic graph the whole pipeline aborts with the cycle error before
any task executes (no run result, hence no dispatch and no side effect). -/
theorem validate_ok_iff_acyclic (g : Graph) (o : Oracle) (hwf : Wf g) :
    ((∃ L, validate g = .ok L) ↔ Acyclic g)
    ∧ (¬ Acyclic g → validate g = .error () ∧ runPipeline g o = .error ()) := by
  constructor
  · constructor
    · rintro ⟨L, hL⟩
      exact validate_ok_acyclic hwf hL
    · exact validate_ok_of_acyclic
  · intro hcyc
    cases hv : validate g with
    | error e =>
      refine ⟨rfl, ?_⟩
      unfold runPipeline
      rw [hv]
    | ok L => exact absurd (validate_ok_acyclic hwf hv) hcyc

/-- C8: for every well-formed acyclic graph (and any behaviour of the task
actions) the scheduler's dispatch loop terminates with a run result in which
`is_resolved` holds: every node is in a terminal state (`Succeeded`,
`Failed` or `Skipped`). -/
theorem scheduler_terminates_resolved (g : Graph) (o : Oracle)
    (hwf : Wf g) (hac : Acyclic g) :
    ∃ r, runPipeline g o = .ok r ∧ isResolved r.finals = true := by
  obtain ⟨L, hL⟩ := validate_ok_of_acyclic hac
  obtain ⟨hnd, hcov, hbnd, _⟩ := validate_ok_inv hwf hL
  refine ⟨_, by unfold runPipeline; rw [hL], ?_⟩
  show isResolved (runCore g o L (initState g)).finals = true
  unfold isResolved
  rw [List.all_eq_true]
  intro x hx
  have hlen : (runCore g o L (initState g)).finals.length = g.n := by
    rw [runCore_finals_length]
    simp [initState]
  obtain ⟨i, hi, hxi⟩ := List.mem_iff_getElem.1 hx
  have hin : i < g.n := by rw [← hlen]; exact hi
  have hterm := runCore_terminal g o L (initState g) (by simp [initState]) hbnd
    (fun j hj => Or.inl (hcov j hj)) i hin
  have hgd : (runCore g o L (initState g)).finals.getD i .Pending = x := by
    rw [List.getD_eq_getElem?_getD, List.getElem?_eq_getElem hi]
    simpa using hxi
  rw [hgd] at hterm
  exact hterm

/-- C2: if a QualityGate resolves with `gate_result = Fail`, every node
strictly downstream of the gate (transitively) ends the run `Skipped`,
while every node outside the gate's downstream set is unaffected by the
gate's result: it ends in the same state as in any run whose oracle agrees
everywhere except on that gate's result. -/
theorem gate_fail_skips_downstream_only
    (g : Graph) (o₁ o₂ : Oracle) (gate : Nat) (r₁ r₂ : RunResult)
    (hwf : Wf g)
    (h₁ : runPipeline g o₁ = .ok r₁) (h₂ : runPipeline g o₂ = .ok r₂)
    (hfail : r₁.gres.getD gate none = some false)
    (hok : o₁.ok = o₂.ok) (hg : ∀ w, w ≠ gate → o₁.gate w = o₂.gate w) :
    (∀ v, ReachP g gate v → r₁.finals.getD v .Pending = .Skipped)
    ∧ (∀ v, ¬ ReachP g gate v →
        r₁.finals.getD v .Pending = r₂.finals.getD v .Pending) := by
  obtain ⟨L₁, hL₁, hf₁, hg₁, _, _⟩ := runPipeline_ok_elim h₁
  obtain ⟨L₂, hL₂, hf₂, _, _, _⟩ := runPipeline_ok_elim h₂
  have hLL : L₁ = L₂ := by
    have := hL₁.symm.trans hL₂
    simpa using this
  constructor
  · intro v hv
    rw [hf₁]
    exact gate_fail_skips g o₁ hwf hL₁ (by rw [← hg₁]; exact hfail) v hv
  · intro v hv
    rw [hf₁, hf₂, ← hLL]
    exact runCore_agree g o₁ o₂ gate hok hg L₁ (initState g) (initState g)
      rfl rfl (fun _ _ => rfl) (fun _ _ _ => rfl) v hv

/-- C4: under the source's retry policy (`retries = 2`,
`retry_delay = 5 minutes = 300 s`), an action failure while retries remain
takes `Running → Retrying` with the fixed 300-second resumption timer
scheduled and the attempt counter bumped; an action failure with retries
exhausted takes `Running → Failed`; a `Retrying` task resumes to `Running`;
and `Failed` and `Succeeded` are terminal — no event moves a task out of
either. -/
theorem task_retry_policy :
    default_args_retries = 2 ∧ default_args_retry_delay = 300 ∧
    (∀ m : TaskM, m.st = .Running → m.attempts < default_args_retries →
      taskStep default_args_retries default_args_retry_delay m .actionFail =
        { st := .Retrying, attempts := m.attempts + 1,
          timer := some default_args_retry_delay }) ∧
    (∀ m : TaskM, m.st = .Running → ¬ m.attempts < default_args_retries →
      taskStep default_args_retries default_args_retry_delay m .actionFail =
        { m with st := .Failed }) ∧
    (∀ m : TaskM, m.st = .Retrying →
      (taskStep default_args_retries default_args_retry_delay m .resume).st =
        .Running) ∧
    (∀ (m : TaskM) (e : TEvent), m.st = .Failed →
      taskStep default_args_retries default_args_retry_delay m e = m) ∧
    (∀ (m : TaskM) (e : TEvent), m.st = .Succeeded →
      taskStep default_args_retries default_args_retry_delay m e = m) := by
  refine ⟨rfl, rfl, ?_, ?_, ?_, ?_, ?_⟩
  · intro m hst hatt
    obtain ⟨st, att, tm⟩ := m
    simp only at hst
    subst hst
    simp only at hatt
    simp [taskStep, hatt]
  · intro m hst hatt
    obtain ⟨st, att, tm⟩ := m
    simp only at hst
    subst hst
    simp only at hatt
    simp [taskStep, hatt]
  · intro m hst
    obtain ⟨st, att, tm⟩ := m
    simp only at hst
    subst hst
    simp [taskStep]
  · intro m e hst
    obtain ⟨st, att, tm⟩ := m
    simp only at hst
    subst hst
    cases e <;> simp [taskStep]
  · intro m e hst
    obtain ⟨st, att, tm⟩ := m
    simp only at hst
    subst hst
    cases e <;> simp [taskStep]

/-- C6: `TaskGroup.state` is the pure function `groupState` of the members'
states, and it satisfies the specified characterization: `Succeeded` iff
every member is `Succeeded`; `Failed` iff some member is `Failed`;
otherwise `Running` when some member is `Running` or `Retrying`, else
`Pending`. -/
theorem groupState_characterization (ms : List TState) :
    (groupState ms = .Succeeded ↔ ∀ s ∈ ms, s = .Succeeded) ∧
    (groupState ms = .Failed ↔ ∃ s ∈ ms, s = .Failed) ∧
    ((¬ ∀ s ∈ ms, s = .Succeeded) → (¬ ∃ s ∈ ms, s = .Failed) →
      ((∃ s ∈ ms, s = .Running ∨ s = .Retrying) → groupState ms = .Running) ∧
      ((∀ s ∈ ms, s ≠ .Running ∧ s ≠ .Retrying) → groupState ms = .Pending)) := by
  have hA : ms.all (fun s => s == TState.Succeeded) = true ↔
      ∀ s ∈ ms, s = .Succeeded := by
    rw [List.all_eq_true]; simp
  have hF : ms.any (fun s => s == TState.Failed) = true ↔
      ∃ s ∈ ms, s = .Failed := by
    rw [List.any_eq_true]; simp
  have hR : ms.any (fun s => s == TState.Running || s == TState.Retrying) = true ↔
      ∃ s ∈ ms, s = .Running ∨ s = .Retrying := by
    rw [List.any_eq_true]; simp
  by_cases h1 : ms.all (fun s => s == TState.Succeeded) = true
  · have hgs : groupState ms = .Succeeded := by
      unfold groupState; rw [if_pos h1]
    refine ⟨⟨fun _ => hA.1 h1, fun _ => hgs⟩, ⟨fun hgf => ?_, fun hex => ?_⟩,
      fun hna _ => absurd (hA.1 h1) hna⟩
    · exact absurd (hgs.symm.trans hgf) (by simp)
    · obtain ⟨s, hsm, hsf⟩ := hex
      have := hA.1 h1 s hsm
      rw [hsf] at this
      exact absurd this (by simp)
  · by_cases h2 : ms.any (fun s => s == TState.Failed) = true
    · have hgs : groupState ms = .Failed := by
        unfold groupState; rw [if_neg h1, if_pos h2]
      refine ⟨⟨fun h => ?_, fun hall => absurd (hA.2 hall) h1⟩,
        ⟨fun _ => hF.1 h2, fun _ => hgs⟩, fun _ hnf => absurd (hF.1 h2) hnf⟩
      exact absurd (hgs.symm.trans h) (by simp)
    · by_cases h3 : ms.any (fun s => s == TState.Running || s == TState.Retrying) = true
      · have hgs : groupState ms = .Running := by
          unfold groupState; rw [if_neg h1, if_neg h2, if_pos h3]
        refine ⟨⟨fun h => absurd (hgs.symm.trans h) (by simp),
          fun hall => absurd (hA.2 hall) h1⟩,
          ⟨fun h => absurd (hgs.symm.trans h) (by simp),
          fun hex => absurd (hF.2 hex) h2⟩, fun _ _ => ⟨fun _ => hgs, fun hnone => ?_⟩⟩
        obtain ⟨s, hsm, hor⟩ := hR.1 h3
        rcases hor with hs | hs
        · exact absurd hs (hnone s hsm).1
        · exact absurd hs (hnone s hsm).2
      · have hgs : groupState ms = .Pending := by
          unfold groupState; rw [if_neg h1, if_neg h2, if_neg h3]
        refine ⟨⟨fun h => absurd (hgs.symm.trans h) (by simp),
          fun hall => absurd (hA.2 hall) h1⟩,
          ⟨fun h => absurd (hgs.symm.trans h) (by simp),
          fun hex => absurd (hF.2 hex) h2⟩,
          fun _ _ => ⟨fun hex => absurd (hR.2 hex) h3, fun _ => hgs⟩⟩

/-- C7: when member `j` of a TaskGroup fails, every sibling that is not yet
in a terminal state receives the cancellation signal and ends
`Skipped`/ignored (it is not allowed to start or race to completion), while
siblings already terminal are left untouched. -/
theorem group_failure_cancels_siblings :
    ∀ (ms : List Member) (j i : Nat), i < ms.length → i ≠ j →
      (terminalState (ms.getD i ⟨.Pending, false⟩).st = false →
        (cancelSiblings ms j).getD i ⟨.Pending, false⟩ =
          { st := .Skipped, cancelled := true }) ∧
      (terminalState (ms.getD i ⟨.Pending, false⟩).st = true →
        (cancelSiblings ms j).getD i ⟨.Pending, false⟩ =
          ms.getD i ⟨.Pending, false⟩) := by
  intro ms
  induction ms with
  | nil => intro j i hi _; exact absurd hi (by simp)
  | cons m ms' ih =>
    intro j i hi hij
    cases j with
    | zero =>
      cases i with
      | zero => exact absurd rfl hij
      | succ i' =>
        have hi' : i' < ms'.length := by simpa using hi
        show (terminalState ((m :: ms').getD (i' + 1) _).st = false → _) ∧ _
        rw [show cancelSiblings (m :: ms') 0 = m :: ms'.map cancelOne from rfl]
        rw [List.getD_cons_succ, List.getD_cons_succ]
        have hmap : (ms'.map cancelOne).getD i' ⟨.Pending, false⟩ =
            cancelOne (ms'.getD i' ⟨.Pending, false⟩) := by
          rw [List.getD_eq_getElem?_getD, List.getElem?_map,
            List.getD_eq_getElem?_getD, List.getElem?_eq_getElem hi']
          rfl
        rw [hmap]
        constructor
        · intro hterm
          unfold cancelOne
          rw [if_neg (by rw [hterm]; simp)]
        · intro hterm
          unfold cancelOne
          rw [if_pos hterm]
    | succ j' =>
      cases i with
      | zero =>
        show (terminalState ((m :: ms').getD 0 _).st = false → _) ∧ _
        rw [show cancelSiblings (m :: ms') (j' + 1) =
          cancelOne m :: cancelSiblings ms' j' from rfl]
        rw [List.getD_cons_zero, List.getD_cons_zero]
        constructor
        · intro hterm
          unfold cancelOne
          rw [if_neg (by rw [hterm]; simp)]
        · intro hterm
          unfold cancelOne
          rw [if_pos hterm]
      | succ i' =>
        have hi' : i' < ms'.length := by simpa using hi
        have hij' : i' ≠ j' := fun h => hij (by rw [h])
        rw [show cancelSiblings (m :: ms') (j' + 1) =
          cancelOne m :: cancelSiblings ms' j' from rfl]
        rw [List.getD_cons_succ, List.getD_cons_succ]
        exact ih j' i' hi' hij'

/-! ### Embedding of `clean_dataframe` (src/scripts/01_data_ingestion.py)

A pandas dataframe is modelled as a list of column names plus one
association list of cells per row; a missing value (`NaN`) is `Cell.na`,
and `rowGet` defaults to `na` exactly as pandas materializes a missing
column entry as `NaN`. -/

/-- A dataframe cell: missing (`NaN`), a string, or a numeric value. -/
inductive Cell where
  | na
  | str (s : String)
  | num (q : Rat)
  deriving DecidableEq, Repr

abbrev Row := List (String × Cell)

/-- Cell of column `c` in a row (`NaN` when the column is absent). -/
def rowGet : Row → String → Cell
  | [], _ => .na
  | p :: r, c => if p.1 = c then p.2 else rowGet r c

/-- Whether a row carries an entry for column `c`. -/
def rowHas : Row → String → Bool
  | [], _ => false
  | p :: r, c => p.1 = c || rowHas r c

/-- Column assignment on one row (`df[c] = v` semantics: update in place if
the column exists, else append it). -/
def rowSet (r : Row) (c : String) (v : Cell) : Row :=
  if rowHas r c then
    r.map (fun p => if p.1 = c then (c, v) else p)
  else
    r ++ [(c, v)]

structure DataFrame where
  cols : List String
  rows : List Row
  deriving DecidableEq, Repr

/-- `df.rename(columns={old: new})`: renames the column in the schema and
in every row. -/
def renameColumn (df : DataFrame) (old new : String) : DataFrame :=
  { cols := df.cols.map (fun c => if c = old then new else c),
    rows := df.rows.map (fun r => r.map (fun p => if p.1 = old then (new, p.2) else p)) }

/-- The `column_mapping` dict of `clean_dataframe`, in source order. -/
def column_mapping : List (String × String) :=
  [("Translated_Review", "review_text"), ("translated_review", "review_text"),
   ("Review", "review_text"), ("review", "review_text"),
   ("Sentiment", "sentiment"), ("sentiment", "sentiment"),
   ("Rating", "rating"), ("rating", "rating"),
   ("Star", "rating"), ("star", "rating"),
   ("App", "app_name"), ("app", "app_name"), ("App_Name", "app_name")]

/-- The `required_columns` list of `clean_dataframe`. -/
def required_columns : List String := ["review_text", "sentiment", "rating"]

/-- The source's rename loop: `for old_name, new_name in column_mapping:
if old_name in df_clean.columns: df_clean = df_clean.rename(...)`. -/
def applyRenames (df : DataFrame) : DataFrame :=
  column_mapping.foldl
    (fun d p => if p.1 ∈ d.cols then renameColumn d p.1 p.2 else d) df

/-- Digit-string parsing used by the numeric coercion (`None` on empty or
non-digit input). -/
def digitsToNat (cs : List Char) : Option Nat :=
  if cs.isEmpty then none
  else cs.foldl
    (fun acc c => acc.bind (fun n => if c.isDigit then some (10 * n + (c.toNat - 48)) else none))
    (some 0)

/-- Whitespace trimming on the character list (`str.strip()`). -/
def trimChars (cs : List Char) : List Char :=
  ((cs.dropWhile (fun c => c.isWhitespace)).reverse.dropWhile
    (fun c => c.isWhitespace)).reverse

/-- Split a character list at every `'.'`. -/
def splitOnDot (cs : List Char) : List (List Char) :=
  match cs with
  | [] => [[]]
  | c :: rest =>
    let r := splitOnDot rest
    if c = '.' then [] :: r
    else
      match r with
      | [] => [[c]]
      | g :: gs => (c :: g) :: gs

/-- Numeric parsing of a string cell (optional sign, integer part, optional
decimal part), modelling `pd.to_numeric(..., errors='coerce')` on strings. -/
def strToRat (s : String) : Option Rat :=
  let t := trimChars s.data
  let sb : Bool × List Char :=
    match t with
    | '-' :: rest => (true, rest)
    | '+' :: rest => (false, rest)
    | _ => (false, t)
  match splitOnDot sb.2 with
  | [ip] => (digitsToNat ip).map (fun n => if sb.1 then -(n : Rat) else (n : Rat))
  | [ip, fp] =>
    match digitsToNat ip, digitsToNat fp with
    | some n, some f =>
      let q : Rat := (n : Rat) + (f : Rat) / ((10 : Rat) ^ fp.length)
      some (if sb.1 then -q else q)
    | _, _ => none
  | _ => none

/-- `pd.to_numeric(cell, errors='coerce')`: numbers pass through, parseable
strings are converted, everything else becomes `NaN`. -/
def toNumericCell : Cell → Cell
  | .na => .na
  | .num q => .num q
  | .str s =>
    match strToRat s with
    | some q => .num q
    | none => .na

/-- `str.title()` on the character list: first letter of each word
uppercased, the rest lowercased. -/
def titleCaseAux : List Char → Bool → List Char
  | [], _ => []
  | ch :: rest, prevAlpha =>
    (if prevAlpha then ch.toLower else ch.toUpper) :: titleCaseAux rest ch.isAlpha

def titleCase (s : String) : String := ⟨titleCaseAux s.data false⟩

/-- `.str.strip().str.title()` on a cell (`NaN` for non-strings, as the
pandas `.str` accessor yields). -/
def stripTitleCell : Cell → Cell
  | .str s => .str (titleCase (String.mk (trimChars s.data)))
  | _ => .na

/-- The `valid_sentiments` list of `clean_dataframe`. -/
def valid_sentiments : List String := ["Positive", "Negative", "Neutral"]

/-- `df.dropna(subset=[c])`. -/
def dropnaCol (df : DataFrame) (c : String) : DataFrame :=
  { df with rows := df.rows.filter (fun r => rowGet r c != .na) }

/-- `df_clean[df_clean['review_text'].str.len() >= 3]` (non-strings give
`NaN` length, and `NaN >= 3` is false). -/
def filterReviewLength (df : DataFrame) : DataFrame :=
  { df with rows := df.rows.filter (fun r =>
      match rowGet r "review_text" with
      | .str s => decide (3 ≤ s.length)
      | _ => false) }

/-- `df_clean[(df_clean['rating'] >= 1) & (df_clean['rating'] <= 5)]`
(comparisons with `NaN` are false). -/
def filterRatingRange (df : DataFrame) : DataFrame :=
  { df with rows := df.rows.filter (fun r =>
      match rowGet r "rating" with
      | .num q => decide (1 ≤ q ∧ q ≤ 5)
      | _ => false) }

/-- `df_clean[df_clean['sentiment'].isin(valid_sentiments)]`. -/
def filterSentiment (df : DataFrame) : DataFrame :=
  { df with rows := df.rows.filter (fun r =>
      match rowGet r "sentiment" with
      | .str s => decide (s ∈ valid_sentiments)
      | _ => false) }

/-- Column assignment `df[c] = f(row)` applied to a whole dataframe. -/
def dfSetCol (df : DataFrame) (c : String) (f : Row → Cell) : DataFrame :=
  { cols := if c ∈ df.cols then df.cols else df.cols ++ [c],
    rows := df.rows.map (fun r => rowSet r c (f r)) }

/-- `pd.cut(review_length, bins=[0, 50, 150, 500, inf],
labels=['Short', 'Medium', 'Long', 'Very Long'])` (right-closed intervals,
out-of-range gives `NaN`). -/
def cutReviewLength (q : Rat) : Cell :=
  if q ≤ 0 then .na
  else if q ≤ 50 then .str "Short"
  else if q ≤ 150 then .str "Medium"
  else if q ≤ 500 then .str "Long"
  else .str "Very Long"

/-- `pd.cut(rating, bins=[0, 2, 3, 4, 5],
labels=['Poor', 'Fair', 'Good', 'Excellent'])`. -/
def cutRating (q : Rat) : Cell :=
  if q ≤ 0 then .na
  else if q ≤ 2 then .str "Poor"
  else if q ≤ 3 then .str "Fair"
  else if q ≤ 4 then .str "Good"
  else if q ≤ 5 then .str "Excellent"
  else .na

/-- `sentiment.map({'Positive': 1, 'Negative': 0, 'Neutral': 0.5})`
(unmapped values become `NaN`). -/
def sentimentBinary : Cell → Cell
  | .str s =>
    if s = "Positive" then .num 1
    else if s = "Negative" then .num 0
    else if s = "Neutral" then .num (1 / 2)
    else .na
  | _ => .na

/-- Count of maximal non-whitespace runs (`str.split()` word count, empty
tokens dropped). -/
def countWordsAux : List Char → Bool → Nat
  | [], _ => 0
  | c :: rest, inWord =>
    if c.isWhitespace then countWordsAux rest false
    else (if inWord then 0 else 1) + countWordsAux rest true

/-- Whitespace word count of `str.split()`. -/
def wordCount (s : String) : Nat := countWordsAux s.data false

/-- `add_features`: the five engineered columns added by the source, in
order — `review_length`, `review_word_count`, `review_length_category`,
`rating_category`, `sentiment_binary`. -/
def add_features (df : DataFrame) : DataFrame :=
  let d := dfSetCol df "review_length" (fun r =>
    match rowGet r "review_text" with
    | .str s => .num (s.length : Rat)
    | _ => .na)
  let d := dfSetCol d "review_word_count" (fun r =>
    match rowGet r "review_text" with
    | .str s => .num (wordCount s : Rat)
    | _ => .na)
  let d := dfSetCol d "review_length_category" (fun r =>
    match rowGet r "review_length" with
    | .num q => cutReviewLength q
    | _ => .na)
  let d := dfSetCol d "rating_category" (fun r =>
    match rowGet r "rating" with
    | .num q => cutRating q
    | _ => .na)
  dfSetCol d "sentiment_binary" (fun r => sentimentBinary (rowGet r "sentiment"))

/-- `clean_dataframe` (value level): renames columns, checks the required
columns (raising `ValueError` otherwise), drops/filters rows on
`review_text`, coerces and range-filters `rating`, normalizes and filters
`sentiment`, adds the engineered features and the two metadata columns.
`now` stands for the `datetime.now()` timestamp string. -/
def clean_dataframe (df : DataFrame) (now : String) : Except String DataFrame :=
  let d := applyRenames df
  if required_columns.all (fun c => c ∈ d.cols) then
    let d := dropnaCol d "review_text"
    let d := filterReviewLength d
    let d := dfSetCol d "rating" (fun r => toNumericCell (rowGet r "rating"))
    let d := dropnaCol d "rating"
    let d := filterRatingRange d
    let d := dfSetCol d "sentiment" (fun r => stripTitleCell (rowGet r "sentiment"))
    let d := filterSentiment d
    let d := add_features d
    let d := dfSetCol d "ingestion_timestamp" (fun _ => .str now)
    let d := dfSetCol d "data_source" (fun _ => .str "kaggle_google_play_store")
    .ok d
  else
    .error "Dataset must contain columns: review_text, sentiment, rating"

/-! ### Python object semantics of `clean_dataframe` for the frame-effect
claim: an explicit heap of dataframe objects.  `df.copy()` and every
pandas call that returns a fresh dataframe (`rename`, `dropna`,
boolean-mask filtering) allocate; in-place column assignments
(`df[c] = ...`, including those inside `add_features`) write through the
current reference. -/

abbrev Heap := List DataFrame

/-- Allocate a fresh dataframe object, returning the new heap and its
reference. -/
def heapAlloc (h : Heap) (d : DataFrame) : Heap × Nat := (h ++ [d], h.length)

/-- `df_clean = <pandas call returning a new dataframe>(df_clean)`:
allocates the result and rebinds the local reference. -/
def rebindStep (s : Heap × Nat) (f : DataFrame → DataFrame) : Heap × Nat :=
  match s.1[s.2]? with
  | some d => heapAlloc s.1 (f d)
  | none => s

/-- `df_clean[c] = ...`: in-place mutation of the referenced object. -/
def inplaceStep (s : Heap × Nat) (f : DataFrame → DataFrame) : Heap × Nat :=
  match s.1[s.2]? with
  | some d => (s.1.set s.2 (f d), s.2)
  | none => s

/-- One iteration of the source's rename loop:
`if old_name in df_clean.columns: df_clean = df_clean.rename(...)`. -/
def renameLoopStep (s : Heap × Nat) (p : String × String) : Heap × Nat :=
  match s.1[s.2]? with
  | some d => if p.1 ∈ d.cols then heapAlloc s.1 (renameColumn d p.1 p.2) else s
  | none => s

/-- The cleaning/feature steps of `clean_dataframe` after the required-column
check, with the source's rebinding vs. in-place distinction. -/
@[irreducible] def cleanPipelineSteps (s : Heap × Nat) (now : String) : Heap × Nat :=
  let s := rebindStep s (fun d => dropnaCol d "review_text")
  let s := rebindStep s filterReviewLength
  let s := inplaceStep s (fun d =>
    dfSetCol d "rating" (fun row => toNumericCell (rowGet row "rating")))
  let s := rebindStep s (fun d => dropnaCol d "rating")
  let s := rebindStep s filterRatingRange
  let s := inplaceStep s (fun d =>
    dfSetCol d "sentiment" (fun row => stripTitleCell (rowGet row "sentiment")))
  let s := rebindStep s filterSentiment
  let s := inplaceStep s add_features
  let s := inplaceStep s (fun d =>
    dfSetCol d "ingestion_timestamp" (fun _ => .str now))
  inplaceStep s (fun d =>
    dfSetCol d "data_source" (fun _ => .str "kaggle_google_play_store"))

/-- The required-column check of `clean_dataframe` (`ValueError` when it
fails) followed by the cleaning steps, at the Python object level. -/
def cleanCheckAndRun (s : Heap × Nat) (now : String) :
    Heap × Except String Nat :=
  match s.1[s.2]? with
  | none => (s.1, .error "invalid dataframe reference")
  | some d =>
    if required_columns.all (fun c => c ∈ d.cols) then
      let t := cleanPipelineSteps s now
      (t.1, .ok t.2)
    else
      (s.1, .error "Dataset must contain columns: review_text, sentiment, rating")

/-- `clean_dataframe` at the Python object level: `df_clean = df.copy()`
first, then the rename loop, the required-column check, and the cleaning
steps, returning the reference to the new object. -/
def clean_dataframe_heap (h : Heap) (r : Nat) (now : String) :
    Heap × Except String Nat :=
  match h[r]? with
  | none => (h, .error "invalid dataframe reference")
  | some df =>
    cleanCheckAndRun (column_mapping.foldl renameLoopStep (heapAlloc h df)) now

/-- Invariant tying an intermediate heap state to the caller's heap: the
caller's object is untouched, the working reference is fresh, and the heap
never shrinks. -/
def HeapInv (h : Heap) (r : Nat) (s : Heap × Nat) : Prop :=
  s.1[r]? = h[r]? ∧ h.length ≤ s.2 ∧ h.length ≤ s.1.length

lemma heapAlloc_inv {h : Heap} {r : Nat} (hr : r < h.length)
    {hp : Heap} {d : DataFrame} (hlen : h.length ≤ hp.length)
    (hget : hp[r]? = h[r]?) : HeapInv h r (heapAlloc hp d) := by
  refine ⟨?_, le_refl _ |>.trans hlen, ?_⟩
  · rw [show (heapAlloc hp d).1 = hp ++ [d] from rfl,
      List.getElem?_append_left (lt_of_lt_of_le hr hlen)]
    exact hget
  · simp [heapAlloc]
    omega

lemma rebindStep_inv {h : Heap} {r : Nat} (hr : r < h.length)
    {s : Heap × Nat} (f : DataFrame → DataFrame) (hs : HeapInv h r s) :
    HeapInv h r (rebindStep s f) := by
  unfold rebindStep
  cases hd : s.1[s.2]? with
  | none => exact hs
  | some d => exact heapAlloc_inv hr hs.2.2 hs.1

lemma inplaceStep_inv {h : Heap} {r : Nat} (hr : r < h.length)
    {s : Heap × Nat} (f : DataFrame → DataFrame) (hs : HeapInv h r s) :
    HeapInv h r (inplaceStep s f) := by
  unfold inplaceStep
  cases hd : s.1[s.2]? with
  | none => exact hs
  | some d =>
    have h21 := hs.2.1
    refine ⟨?_, hs.2.1, by simpa using hs.2.2⟩
    rw [List.getElem?_set_ne (by omega : s.2 ≠ r)]
    exact hs.1

lemma renameLoopStep_inv {h : Heap} {r : Nat} (hr : r < h.length)
    {s : Heap × Nat} (p : String × String) (hs : HeapInv h r s) :
    HeapInv h r (renameLoopStep s p) := by
  unfold renameLoopStep
  cases hd : s.1[s.2]? with
  | none => exact hs
  | some d =>
    show HeapInv h r (if p.1 ∈ d.cols then heapAlloc s.1 (renameColumn d p.1 p.2) else s)
    by_cases hc : p.1 ∈ d.cols
    · rw [if_pos hc]
      exact heapAlloc_inv hr hs.2.2 hs.1
    · rw [if_neg hc]
      exact hs

lemma renameLoop_inv {h : Heap} {r : Nat} (hr : r < h.length) :
    ∀ (l : List (String × String)) (s : Heap × Nat), HeapInv h r s →
      HeapInv h r (l.foldl renameLoopStep s) := by
  intro l
  induction l with
  | nil => intro s hs; exact hs
  | cons p l' ih =>
    intro s hs
    exact ih (renameLoopStep s p) (renameLoopStep_inv hr p hs)

lemma cleanPipelineSteps_inv {h : Heap} {r : Nat} (hr : r < h.length)
    {s : Heap × Nat} (now : String) (hs : HeapInv h r s) :
    HeapInv h r (cleanPipelineSteps s now) := by
  unfold cleanPipelineSteps
  exact inplaceStep_inv hr _ (inplaceStep_inv hr _ (inplaceStep_inv hr _
    (rebindStep_inv hr _ (inplaceStep_inv hr _ (rebindStep_inv hr _
    (rebindStep_inv hr _ (inplaceStep_inv hr _ (rebindStep_inv hr _
    (rebindStep_inv hr _ hs)))))))))

lemma cleanCheckAndRun_inv {h : Heap} {r : Nat} (hr : r < h.length)
    {s : Heap × Nat} (now : String) (hs : HeapInv h r s) :
    (cleanCheckAndRun s now).1[r]? = h[r]? := by
  unfold cleanCheckAndRun
  split
  · exact hs.1
  · rename_i d hd
    by_cases hreq : (required_columns.all fun c => decide (c ∈ d.cols)) = true
    · rw [if_pos hreq]
      exact (cleanPipelineSteps_inv hr now hs).1
    · rw [if_neg hreq]
      exact hs.1

/-- C10: `clean_dataframe` never mutates the dataframe object passed to it —
after the call (successful or not) the caller's heap cell is exactly what
it was before; all cleaning, renaming and feature columns touch only the
internal copy made by `df.copy()`. -/
theorem clean_dataframe_no_mutation (h : Heap) (r : Nat) (now : String) :
    (clean_dataframe_heap h r now).1[r]? = h[r]? := by
  unfold clean_dataframe_heap
  split
  · rfl
  · rename_i df hd
    have hr : r < h.length := by
      by_contra hge
      rw [List.getElem?_eq_none (by omega)] at hd
      exact absurd hd (by simp)
    exact cleanCheckAndRun_inv hr now
      (renameLoop_inv hr column_mapping (heapAlloc h df)
        (heapAlloc_inv hr (le_refl _) rfl))

/-! ### Row-level lemmas for the cleaning pipeline -/

lemma rowGet_map_update_self (c : String) (v : Cell) :
    ∀ r : Row, rowHas r c = true →
      rowGet (r.map (fun p => if p.1 = c then (c, v) else p)) c = v := by
  intro r
  induction r with
  | nil => intro h; simp [rowHas] at h
  | cons p r' ih =>
    intro h
    rw [List.map_cons]
    by_cases hp : p.1 = c
    · rw [if_pos hp]
      simp [rowGet]
    · rw [if_neg hp]
      simp only [rowGet, if_neg hp]
      refine ih ?_
      simp only [rowHas, hp] at h
      simpa using h

lemma rowGet_map_update_ne {c c' : String} (v : Cell) (h : c ≠ c') :
    ∀ r : Row,
      rowGet (r.map (fun p => if p.1 = c then (c, v) else p)) c' = rowGet r c' := by
  intro r
  induction r with
  | nil => simp [rowGet]
  | cons p r' ih =>
    rw [List.map_cons]
    by_cases hp : p.1 = c
    · rw [if_pos hp]
      have hcc : ¬ (c = c') := h
      have hpc : ¬ (p.1 = c') := fun hh => h (hp ▸ hh)
      simp only [rowGet, if_neg hcc, if_neg hpc]
      exact ih
    · rw [if_neg hp]
      simp only [rowGet]
      by_cases hpc : p.1 = c'
      · rw [if_pos hpc, if_pos hpc]
      · rw [if_neg hpc, if_neg hpc]
        exact ih

lemma rowGet_append_single_self (c : String) (v : Cell) :
    ∀ r : Row, rowHas r c = false → rowGet (r ++ [(c, v)]) c = v := by
  intro r
  induction r with
  | nil => intro _; simp [rowGet]
  | cons p r' ih =>
    intro h
    simp only [rowHas] at h
    rw [List.cons_append]
    simp only [rowGet]
    have hp : ¬ (p.1 = c) := by
      intro hh
      simp [hh] at h
    rw [if_neg hp]
    refine ih ?_
    simpa [hp] using h

lemma rowGet_append_single_ne {c c' : String} (v : Cell) (h : c ≠ c') :
    ∀ r : Row, rowGet (r ++ [(c, v)]) c' = rowGet r c' := by
  intro r
  induction r with
  | nil => simp [rowGet, h]
  | cons p r' ih =>
    rw [List.cons_append]
    simp only [rowGet]
    by_cases hpc : p.1 = c'
    · rw [if_pos hpc, if_pos hpc]
    · rw [if_neg hpc, if_neg hpc]
      exact ih

lemma rowGet_rowSet_self (r : Row) (c : String) (v : Cell) :
    rowGet (rowSet r c v) c = v := by
  unfold rowSet
  by_cases hs : rowHas r c = true
  · rw [if_pos hs]
    exact rowGet_map_update_self c v r hs
  · rw [if_neg hs]
    exact rowGet_append_single_self c v r (by
      cases hb : rowHas r c
      · rfl
      · exact absurd hb hs)

lemma rowGet_rowSet_ne (r : Row) {c c' : String} (v : Cell) (h : c ≠ c') :
    rowGet (rowSet r c v) c' = rowGet r c' := by
  unfold rowSet
  by_cases hs : rowHas r c = true
  · rw [if_pos hs]
    exact rowGet_map_update_ne v h r
  · rw [if_neg hs]
    exact rowGet_append_single_ne v h r

lemma mem_dfSetCol_rows {df : DataFrame} {c : String} {f : Row → Cell} {r : Row}
    (h : r ∈ (dfSetCol df c f).rows) :
    ∃ r₀, r₀ ∈ df.rows ∧ r = rowSet r₀ c (f r₀) := by
  unfold dfSetCol at h
  simp only [List.mem_map] at h
  obtain ⟨r₀, h₀, he⟩ := h
  exact ⟨r₀, h₀, he.symm⟩

lemma dropnaCol_rows_subset {df : DataFrame} {c : String} {r : Row}
    (h : r ∈ (dropnaCol df c).rows) : r ∈ df.rows := by
  unfold dropnaCol at h
  exact (List.mem_filter.1 h).1

lemma filterReviewLength_sound {df : DataFrame} {r : Row}
    (h : r ∈ (filterReviewLength df).rows) :
    r ∈ df.rows ∧ ∃ s, rowGet r "review_text" = .str s ∧ 3 ≤ s.length := by
  unfold filterReviewLength at h
  rw [List.mem_filter] at h
  refine ⟨h.1, ?_⟩
  have hp := h.2
  cases hc : rowGet r "review_text" with
  | na => rw [hc] at hp; simp at hp
  | num q => rw [hc] at hp; simp at hp
  | str s =>
    rw [hc] at hp
    simp at hp
    exact ⟨s, rfl, hp⟩

lemma filterRatingRange_sound {df : DataFrame} {r : Row}
    (h : r ∈ (filterRatingRange df).rows) :
    r ∈ df.rows ∧ ∃ q, rowGet r "rating" = .num q ∧ 1 ≤ q ∧ q ≤ 5 := by
  unfold filterRatingRange at h
  rw [List.mem_filter] at h
  refine ⟨h.1, ?_⟩
  have hp := h.2
  cases hc : rowGet r "rating" with
  | na => rw [hc] at hp; simp at hp
  | str s => rw [hc] at hp; simp at hp
  | num q =>
    rw [hc] at hp
    simp at hp
    exact ⟨q, rfl, hp.1, hp.2⟩

lemma filterSentiment_sound {df : DataFrame} {r : Row}
    (h : r ∈ (filterSentiment df).rows) :
    r ∈ df.rows ∧ ∃ s, rowGet r "sentiment" = .str s ∧ s ∈ valid_sentiments := by
  unfold filterSentiment at h
  rw [List.mem_filter] at h
  refine ⟨h.1, ?_⟩
  have hp := h.2
  cases hc : rowGet r "sentiment" with
  | na => rw [hc] at hp; simp at hp
  | num q => rw [hc] at hp; simp at hp
  | str s =>
    rw [hc] at hp
    simp at hp
    exact ⟨s, rfl, by simpa [valid_sentiments] using hp⟩

lemma mem_add_features_rows {df : DataFrame} {r : Row}
    (h : r ∈ (add_features df).rows) :
    ∃ r₀, r₀ ∈ df.rows ∧
      rowGet r "review_text" = rowGet r₀ "review_text" ∧
      rowGet r "rating" = rowGet r₀ "rating" ∧
      rowGet r "sentiment" = rowGet r₀ "sentiment" := by
  unfold add_features at h
  obtain ⟨r₁, hr₁, he₁⟩ := mem_dfSetCol_rows h
  obtain ⟨r₂, hr₂, he₂⟩ := mem_dfSetCol_rows hr₁
  obtain ⟨r₃, hr₃, he₃⟩ := mem_dfSetCol_rows hr₂
  obtain ⟨r₄, hr₄, he₄⟩ := mem_dfSetCol_rows hr₃
  obtain ⟨r₅, hr₅, he₅⟩ := mem_dfSetCol_rows hr₄
  refine ⟨r₅, hr₅, ?_, ?_, ?_⟩
  · rw [he₁, rowGet_rowSet_ne _ _ (by decide), he₂,
      rowGet_rowSet_ne _ _ (by decide), he₃, rowGet_rowSet_ne _ _ (by decide),
      he₄, rowGet_rowSet_ne _ _ (by decide), he₅, rowGet_rowSet_ne _ _ (by decide)]
  · rw [he₁, rowGet_rowSet_ne _ _ (by decide), he₂,
      rowGet_rowSet_ne _ _ (by decide), he₃, rowGet_rowSet_ne _ _ (by decide),
      he₄, rowGet_rowSet_ne _ _ (by decide), he₅, rowGet_rowSet_ne _ _ (by decide)]
  · rw [he₁, rowGet_rowSet_ne _ _ (by decide), he₂,
      rowGet_rowSet_ne _ _ (by decide), he₃, rowGet_rowSet_ne _ _ (by decide),
      he₄, rowGet_rowSet_ne _ _ (by decide), he₅, rowGet_rowSet_ne _ _ (by decide)]

/-- C9: every row of a dataframe returned by `clean_dataframe` has a string
`review_text` of length at least 3, a numeric `rating` between 1 and 5, and
a `sentiment` among `Positive`, `Negative`, `Neutral`. -/
theorem clean_dataframe_row_invariants (df : DataFrame) (now : String)
    (out : DataFrame) (h : clean_dataframe df now = .ok out) :
    ∀ r ∈ out.rows,
      (∃ s, rowGet r "review_text" = .str s ∧ 3 ≤ s.length) ∧
      (∃ q, rowGet r "rating" = .num q ∧ 1 ≤ q ∧ q ≤ 5) ∧
      (∃ s, rowGet r "sentiment" = .str s ∧ s ∈ valid_sentiments) := by
  unfold clean_dataframe at h
  by_cases hreq : (required_columns.all fun c => decide (c ∈ (applyRenames df).cols)) = true
  · rw [if_pos hreq] at h
    simp only [Except.ok.injEq] at h
    subst h
    intro r hr
    obtain ⟨rA, hrA, heA⟩ := mem_dfSetCol_rows hr
    obtain ⟨rB, hrB, heB⟩ := mem_dfSetCol_rows hrA
    obtain ⟨rC, hrC, hrevBC, hratBC, hsenBC⟩ := mem_add_features_rows hrB
    obtain ⟨hrC₇, s, hsen, hsv⟩ := filterSentiment_sound hrC
    obtain ⟨rD, hrD, heD⟩ := mem_dfSetCol_rows hrC₇
    obtain ⟨hrD₅, q, hrat, hq1, hq5⟩ := filterRatingRange_sound hrD
    have hrD₄ : rD ∈ (dfSetCol (filterReviewLength (dropnaCol (applyRenames df)
        "review_text")) "rating" (fun r => toNumericCell (rowGet r "rating"))).rows :=
      dropnaCol_rows_subset hrD₅
    obtain ⟨rE, hrE, heE⟩ := mem_dfSetCol_rows hrD₄
    obtain ⟨_, s', hrev, hs3⟩ := filterReviewLength_sound hrE
    have hrevD : rowGet rD "review_text" = .str s' := by
      rw [heE, rowGet_rowSet_ne _ _ (by decide), hrev]
    have hrevC : rowGet rC "review_text" = .str s' := by
      rw [heD, rowGet_rowSet_ne _ _ (by decide), hrevD]
    have hratC : rowGet rC "rating" = .num q := by
      rw [heD, rowGet_rowSet_ne _ _ (by decide), hrat]
    have htrans : ∀ c' : String, c' ≠ "ingestion_timestamp" → c' ≠ "data_source" →
        rowGet r c' = rowGet rB c' := by
      intro c' h1 h2
      rw [heA, rowGet_rowSet_ne _ _ (fun hh => h2 hh.symm),
        heB, rowGet_rowSet_ne _ _ (fun hh => h1 hh.symm)]
    refine ⟨⟨s', ?_, hs3⟩, ⟨q, ?_, hq1, hq5⟩, ⟨s, ?_, hsv⟩⟩
    · rw [htrans _ (by decide) (by decide), hrevBC, hrevC]
    · rw [htrans _ (by decide) (by decide), hratBC, hratC]
    · rw [htrans _ (by decide) (by decide), hsenBC, hsen]
  · rw [if_neg hreq] at h
    exact absurd h (by simp)

instance {e a : Type} [DecidableEq e] [DecidableEq a] :
    DecidableEq (Except e a) := fun x y =>
  match x, y with
  | .error u, .error v =>
    if h : u = v then .isTrue (by rw [h]) else
      .isFalse (fun hh => h (by injection hh))
  | .ok u, .ok v =>
    if h : u = v then .isTrue (by rw [h]) else
      .isFalse (fun hh => h (by injection hh))
  | .error _, .ok _ => .isFalse (fun hh => by injection hh)
  | .ok _, .error _ => .isFalse (fun hh => by injection hh)

/-! ### Concrete instances -/

/-- A three-node chain `0 → 1 → 2` whose middle node is a QualityGate
(load → quality-check → downstream phase). -/
def gW : Graph := ⟨3, [(0, 1), (1, 2)], [1]⟩

/-- Oracle: every action succeeds, every gate passes. -/
def oPass : Oracle := ⟨fun _ _ => true, fun _ => true⟩

/-- Oracle: every action succeeds, but gate `1` resolves `Fail`. -/
def oFail : Oracle := ⟨fun _ _ => true, fun v => !(v == 1)⟩

/-- A two-node cyclic graph. -/
def gCyc : Graph := ⟨2, [(0, 1), (1, 0)], []⟩

/-- The run of `gW` under `oPass`. -/
def rPassW : RunResult :=
  { finals := [.Succeeded, .Succeeded, .Succeeded],
    gres := [none, some true, none],
    trace := [(0, [.Pending, .Pending, .Pending]),
              (1, [.Succeeded, .Pending, .Pending]),
              (2, [.Succeeded, .Succeeded, .Pending])],
    verdict := .succeeded }

/-- The run of `gW` under `oFail`: the gate's downstream node is skipped. -/
def rFailW : RunResult :=
  { finals := [.Succeeded, .Succeeded, .Skipped],
    gres := [none, some false, none],
    trace := [(0, [.Pending, .Pending, .Pending]),
              (1, [.Succeeded, .Pending, .Pending])],
    verdict := .failed }

lemma gW_reach_lt : ∀ {a b : Nat}, ReachP gW a b → a < b := by
  intro a b h
  induction h with
  | @single b he =>
    have hm : (a, b) ∈ gW.edges := he
    simp [gW] at hm
    rcases hm with ⟨h1, h2⟩ | ⟨h1, h2⟩ <;> omega
  | @snoc w b hp he ih =>
    have hm : (w, b) ∈ gW.edges := he
    simp [gW] at hm
    rcases hm with ⟨h1, h2⟩ | ⟨h1, h2⟩ <;> omega

lemma gW_acyclic : Acyclic gW := fun v hv => absurd (gW_reach_lt hv) (lt_irrefl v)

/-- Witness members for the group-cancellation handler. -/
def msW : List Member := [⟨.Succeeded, false⟩, ⟨.Failed, false⟩, ⟨.Running, false⟩]

/-- Witness input dataframe (pre-rename Kaggle-style column names). -/
def dfW : DataFrame :=
  ⟨["Review", "Sentiment", "Rating"],
   [[("Review", .str "Great app"), ("Sentiment", .str " positive "),
     ("Rating", .str "5")]]⟩

/-- The single row of `clean_dataframe dfW "t0"`. -/
def rowW : Row :=
  [("review_text", .str "Great app"), ("sentiment", .str "Positive"),
   ("rating", .num 5), ("review_length", .num 9), ("review_word_count", .num 2),
   ("review_length_category", .str "Short"), ("rating_category", .str "Excellent"),
   ("sentiment_binary", .num 1), ("ingestion_timestamp", .str "t0"),
   ("data_source", .str "kaggle_google_play_store")]

/-- The output of `clean_dataframe dfW "t0"`. -/
def outW : DataFrame :=
  ⟨["review_text", "sentiment", "rating", "review_length", "review_word_count",
    "review_length_category", "rating_category", "sentiment_binary",
    "ingestion_timestamp", "data_source"],
   [rowW]⟩

/-! ### Witnesses -/

/-- Witness for C1 at the dispatch of node `2` in the `oPass` run of `gW`. -/
theorem scheduler_dispatch_witness :
    [TState.Succeeded, .Succeeded, .Pending].getD 1 .Pending = .Succeeded ∧
    runPipeline gW oPass = .ok rPassW :=
  ⟨scheduler_never_dispatches_with_unmet_upstream gW oPass rPassW rfl 2
    [TState.Succeeded, .Succeeded, .Pending] (by decide) 1 (by decide),
   rfl⟩

/-- Witness for C2: gate `1` of `gW` fails, node `2` is skipped, node `0`
is unaffected relative to the all-pass run. -/
theorem gate_fail_witness :
    runPipeline gW oFail = .ok rFailW ∧
    rFailW.gres.getD 1 none = some false ∧
    rFailW.finals.getD 2 .Pending = .Skipped ∧
    rFailW.finals.getD 0 .Pending = rPassW.finals.getD 0 .Pending := by
  have hmain := gate_fail_skips_downstream_only gW oFail oPass 1 rFailW rPassW
    (by decide) rfl rfl (by decide) rfl
    (fun w hw => by simp [oFail, oPass, hw])
  exact ⟨rfl, by decide, hmain.1 2 (ReachP.single (show Edge gW 1 2 by decide)),
    hmain.2 0 (fun h => absurd (gW_reach_lt h) (by omega))⟩

/-- Witness for C3 on the all-pass run of `gW`. -/
theorem run_verdict_witness :
    (rPassW.verdict = .succeeded ↔
      ∀ v, v < gW.n → rPassW.finals.getD v .Pending = .Succeeded) ∧
    (rPassW.verdict = .succeeded ∨ rPassW.verdict = .failed) :=
  run_verdict_iff_all_succeeded gW oPass rPassW rfl

/-- Witness for C4 at concrete machine states. -/
theorem task_retry_witness :
    taskStep default_args_retries default_args_retry_delay ⟨.Running, 0, none⟩
      .actionFail = ⟨.Retrying, 1, some default_args_retry_delay⟩ ∧
    taskStep default_args_retries default_args_retry_delay ⟨.Running, 2, none⟩
      .actionFail = ⟨.Failed, 2, none⟩ ∧
    taskStep default_args_retries default_args_retry_delay ⟨.Failed, 2, none⟩
      .actionOk = ⟨.Failed, 2, none⟩ :=
  ⟨task_retry_policy.2.2.1 ⟨.Running, 0, none⟩ rfl (by decide),
   task_retry_policy.2.2.2.1 ⟨.Running, 2, none⟩ rfl (by decide),
   task_retry_policy.2.2.2.2.2.1 ⟨.Failed, 2, none⟩ .actionOk rfl⟩

/-- Witness for C5 on the acyclic `gW` and the cyclic `gCyc`. -/
theorem validate_cycle_witness :
    ((∃ L, validate gW = .ok L) ↔ Acyclic gW) ∧
    validate gCyc = .error () ∧ runPipeline gCyc oPass = .error () := by
  have hnc : ¬ Acyclic gCyc := fun hac =>
    hac 0 (ReachP.snoc (ReachP.single (show Edge gCyc 0 1 by decide))
      (show Edge gCyc 1 0 by decide))
  exact ⟨(validate_ok_iff_acyclic gW oPass (by decide)).1,
    (validate_ok_iff_acyclic gCyc oPass (by decide)).2 hnc⟩

/-- Witness for C6 at concrete member-state lists. -/
theorem group_state_witness :
    groupState [TState.Succeeded, TState.Failed] = .Failed ∧
    groupState [TState.Succeeded, TState.Running] = .Running :=
  ⟨(groupState_characterization _).2.1.mpr (by decide),
   ((groupState_characterization _).2.2 (by decide) (by decide)).1 (by decide)⟩

/-- Witness for C7: after member `1` of `msW` fails, the running sibling `2`
is cancelled and the terminal sibling `0` is untouched. -/
theorem cancel_siblings_witness :
    (cancelSiblings msW 1).getD 2 ⟨.Pending, false⟩ = ⟨.Skipped, true⟩ ∧
    (cancelSiblings msW 1).getD 0 ⟨.Pending, false⟩ = ⟨.Succeeded, false⟩ :=
  ⟨(group_failure_cancels_siblings msW 1 2 (by decide) (by decide)).1 (by decide),
   ((group_failure_cancels_siblings msW 1 0 (by decide) (by decide)).2
     (by decide)).trans (by decide)⟩

/-- Witness for C8 on the acyclic `gW`. -/
theorem scheduler_resolved_witness :
    Wf gW ∧ Acyclic gW ∧
    ∃ r, runPipeline gW oPass = .ok r ∧ isResolved r.finals = true :=
  ⟨by decide, gW_acyclic, scheduler_terminates_resolved gW oPass (by decide) gW_acyclic⟩

/-- Witness for C9 on the concrete dataframe `dfW`. -/
theorem clean_rows_witness :
    clean_dataframe dfW "t0" = .ok outW ∧
    ((∃ s, rowGet rowW "review_text" = .str s ∧ 3 ≤ s.length) ∧
     (∃ q, rowGet rowW "rating" = .num q ∧ 1 ≤ q ∧ q ≤ 5) ∧
     (∃ s, rowGet rowW "sentiment" = .str s ∧ s ∈ valid_sentiments)) :=
  ⟨by decide, clean_dataframe_row_invariants dfW "t0" outW (by decide) rowW (by decide)⟩
